import Mathlib

/-!
Verification development for the sfs-js virtual-filesystem library.

The TypeScript sources (src/vpk.ts, src/game.ts, src/index.ts, src/fs.node.ts)
are shallowly embedded below.  JavaScript strings and byte buffers are both
modelled as lists of naturals (`BStr` / `Bytes`); for the ASCII data handled by
the library this is byte-exact (TextDecoder round-trips valid UTF-8, so
building file-table keys out of raw bytes agrees with the string level).
Asynchronous methods are modelled as pure functions threading explicit state;
thrown JavaScript exceptions are modelled with `Except`; `undefined` results
are `Option.none`.  Backend I/O (the ReadableFileSystem contract of
src/index.ts) is an explicit environment value, and every operation also
reports the list of backend paths it read, so that claims about "no additional
read" are stateable.
-/

/-- A JavaScript string / byte buffer, as its byte values. -/
abbrev BStr := List Nat

/-- File contents. -/
abbrev Bytes := List Nat

/-- ASCII literal helper: the byte values of a Lean string (used only with
ASCII literals, where it coincides with the UTF-8/UTF-16 code units). -/
def bstr (s : String) : BStr := s.data.map (fun c => c.toNat)

/-- Boolean list-equality based prefix test (JS String.startsWith). -/
def isPrefB : BStr → BStr → Bool
  | [], _ => true
  | _ :: _, [] => false
  | a :: as, b :: bs2 => a == b && isPrefB as bs2

/-- JS String.endsWith. -/
def isSuffB (p l : BStr) : Bool := isPrefB p.reverse l.reverse

/-- First index at which the predicate holds. -/
def findIdxB (pred : Nat → Bool) : BStr → Option Nat
  | [] => none
  | x :: xs => if pred x then some 0 else (findIdxB pred xs).map (fun j => j + 1)

/-- JS indexOf(byte, start): smallest index at or after start holding the
given byte value. -/
def indexOfFrom (l : BStr) (b : Nat) (start : Nat) : Option Nat :=
  (findIdxB (fun x => x == b) (l.drop start)).map (fun j => j + start)

/-- JS slice(start, end) on byte buffers (clamping, as in JS). -/
def sliceB (l : BStr) (s e : Nat) : BStr := (l.drop s).take (e - s)

/-- JS String.trim over the ASCII whitespace characters (tab, LF, VT, FF,
CR, space); the library only trims ASCII content. -/
def isWsB (b : Nat) : Bool := b == 9 || b == 10 || b == 11 || b == 12 || b == 13 || b == 32

def trimB (l : BStr) : BStr :=
  ((l.dropWhile isWsB).reverse.dropWhile isWsB).reverse

/-- JS String.toLowerCase restricted to the ASCII range (the library
lower-cases qualifier keys and search-path prefixes, which are ASCII). -/
def lowerB (l : BStr) : BStr :=
  l.map (fun b => if 65 ≤ b ∧ b ≤ 90 then b + 32 else b)

/-- JS String.split(sep) for a single-byte separator. -/
def splitOnByte (sep : Nat) : BStr → List BStr
  | [] => [[]]
  | x :: xs =>
    let r := splitOnByte sep xs
    if x == sep then [] :: r
    else match r with
      | [] => [[x]]
      | c :: cs => (x :: c) :: cs

/-- Decimal digits of a natural, as ASCII bytes (JS (n + '') for n : Nat). -/
def natDecAux : Nat → Nat → BStr
  | 0, n => [48 + n % 10]
  | fuel + 1, n => if n < 10 then [48 + n] else natDecAux fuel (n / 10) ++ [48 + n % 10]

def natDec (n : Nat) : BStr := natDecAux n n

/-- JS String.padStart(3, '0'). -/
def padStart3 (l : BStr) : BStr :=
  if l.length < 3 then List.replicate (3 - l.length) 48 ++ l else l

/-- JS String.replaceAll for literal byte patterns (used for the
backslash-pair to slash rewrite in SteamCache.parse). -/
def replaceAllB : Nat → BStr → BStr → BStr → BStr
  | 0, _, _, _ => []
  | _ + 1, [], _, _ => []
  | fuel + 1, x :: xs, pat, rep =>
    if pat ≠ [] ∧ isPrefB pat (x :: xs) then
      rep ++ replaceAllB fuel ((x :: xs).drop pat.length) pat rep
    else x :: replaceAllB fuel xs pat rep

def replaceAll (l pat rep : BStr) : BStr := replaceAllB l.length l pat rep

/-! ## node:path/posix

The library imports join, normalize, dirname and basename from path/posix.
The following definitions mirror the Node.js posix implementations. -/

/-- Segment normalization of posix normalize: drop empty and '.' segments,
resolve '..' against the stack (discarding it at an absolute root, keeping it
when relative). -/
def normAux (isAbs : Bool) : List BStr → List BStr → List BStr
  | [], stack => stack.reverse
  | s :: rest, stack =>
    if s = [] ∨ s = [46] then normAux isAbs rest stack
    else if s = [46, 46] then
      match stack with
      | t :: ts => if t = [46, 46] then normAux isAbs rest (s :: t :: ts) else normAux isAbs rest ts
      | [] => if isAbs then normAux isAbs rest [] else normAux isAbs rest [s]
    else normAux isAbs rest (s :: stack)

def interSlash (l : List BStr) : BStr := List.intercalate [47] l

/-- posix.normalize. -/
def pnormalize (p : BStr) : BStr :=
  if p = [] then [46]
  else
    let isAbs := isPrefB [47] p
    let trail := isSuffB [47] p
    let body := interSlash (normAux isAbs (splitOnByte 47 p) [])
    if body = [] then
      if isAbs then [47] else if trail then [46, 47] else [46]
    else
      let body := if trail then body ++ [47] else body
      if isAbs then 47 :: body else body

/-- posix.join of a list of parts. -/
def pjoinList (parts : List BStr) : BStr :=
  let ne := parts.filter (fun x => x ≠ [])
  if ne = [] then [46] else pnormalize (interSlash ne)

/-- posix.join of two parts. -/
def pjoin (a b : BStr) : BStr := pjoinList [a, b]

/-- posix.dirname (mirrors the Node scan: skip trailing slashes, cut at the
last remaining slash of index at least 1). -/
def lastSlashFrom1 (l : BStr) : Option Nat :=
  ((l.enum.filter (fun x => 1 ≤ x.1 ∧ x.2 = 47)).map (fun x => x.1)).getLast?

def dirnameB (p : BStr) : BStr :=
  if p = [] then [46]
  else
    let hasRoot := isPrefB [47] p
    let trail := (p.reverse.takeWhile (fun b => b == 47)).length
    let trail := if trail = p.length then p.length - 1 else trail
    let q := p.take (p.length - trail)
    match lastSlashFrom1 q with
    | none => if hasRoot then [47] else [46]
    | some e => if hasRoot ∧ e = 1 then [47, 47] else p.take e

/-- posix.basename (no extension argument). -/
def basenameB (p : BStr) : BStr :=
  let trail := (p.reverse.takeWhile (fun b => b == 47)).length
  let q := p.take (p.length - trail)
  (q.reverse.takeWhile (fun b => b ≠ 47)).reverse

/-! ## The ReadableFileSystem backend and external collaborators

src/index.ts: ReadableFileSystem has readFile, readDirectory and stat, all
returning an absent value for not-found.  FileType: File = 1, Directory = 2.
The key-value text parser (fast-vdf) and glob expansion are external
collaborators (spec section 6); they enter the model as oracle components of
the environment. -/

structure FStat where
  type : Nat
  ctime : Nat
  mtime : Nat
  size : Nat
deriving Repr, DecidableEq

/-- Configuration tree of the external key-value parser: leaf pairs and named
sections, in document order (spec section 6 tree-accessor contract). -/
inductive KVChild where
  | leaf (key : BStr) (val : BStr)
  | node (key : BStr) (children : List KVChild)

abbrev KVDoc := List KVChild

/-- The environment: the storage backend consumed through the
ReadableFileSystem contract, plus the external parser and glob oracles. -/
structure Env where
  read : BStr → Option Bytes
  rdir : BStr → Option (List (BStr × Nat))
  statf : BStr → Option FStat
  parseKV : Bytes → Option KVDoc
  isNode : Bool
  glob : BStr → List BStr

/-- Modelled from the spec: the external configuration-tree accessor fetching
a named child section; absence throws (fast-vdf dir(key)). -/
def kvDir (cs : List KVChild) (key : BStr) : Except BStr (List KVChild) :=
  match cs.findSome? (fun c => match c with
    | .node k ch => if k == key then some ch else none
    | .leaf _ _ => none) with
  | some ch => Except.ok ch
  | none => Except.error (bstr "missing section")

/-- Modelled from the spec: dir(key, null) returning an absent value. -/
def kvDirOpt (cs : List KVChild) (key : BStr) : Option (List KVChild) :=
  cs.findSome? (fun c => match c with
    | .node k ch => if k == key then some ch else none
    | .leaf _ _ => none)

/-- Modelled from the spec: the accessor fetching a named leaf value;
absence throws (fast-vdf pair(key).string()). -/
def kvPair (cs : List KVChild) (key : BStr) : Except BStr BStr :=
  match cs.findSome? (fun c => match c with
    | .leaf k v => if k == key then some v else none
    | .node _ _ => none) with
  | some v => Except.ok v
  | none => Except.error (bstr "missing pair")

/-- Modelled from the spec: pair(key, null) returning an absent value. -/
def kvPairOpt (cs : List KVChild) (key : BStr) : Option BStr :=
  cs.findSome? (fun c => match c with
    | .leaf k v => if k == key then some v else none
    | .node _ _ => none)

/-- Modelled from the spec: a leaf's boolean interpretation (the value 0 is
false, anything else true). -/
def kvBool (v : BStr) : Bool := v ≠ bstr "0"

def kvKey : KVChild → BStr
  | .leaf k _ => k
  | .node k _ => k

/-- src/game.ts readKV: read bytes, absent stays absent, then hand to the
external parser (whose own failure is caught and becomes absent). -/
def readKV (env : Env) (path : BStr) : Option KVDoc :=
  match env.read path with
  | none => none
  | some bytes => env.parseKV bytes

/-! ## src/vpk.ts — VpkSystem -/

structure VpkFileInfo where
  crc : Nat
  preloadBytes : Bytes
  archiveIndex : Nat
  offset : Nat
  length : Nat
deriving Repr, DecidableEq

/-- VpkSystem state.  version : -1 INVALID, 0 NONE, 1, 2. -/
structure VpkSystem where
  path : BStr
  root : BStr
  name : BStr
  single : Bool
  version : Int
  files : List (BStr × VpkFileInfo)
  dirs : List BStr
  treeSize : Nat
  cache : Option (List (Nat × Bytes))
deriving Repr, DecidableEq

/-- The VpkSystem constructor. -/
def VpkSystem.new (path0 : BStr) (enableCache : Bool) : VpkSystem :=
  let path := if isSuffB (bstr ".vpk") path0 then path0 else path0 ++ bstr ".vpk"
  let single := ¬ isSuffB (bstr "_dir.vpk") path
  { path := path
    root := dirnameB path
    name := (basenameB path).take ((basenameB path).length - (if single then 4 else 8))
    single := single
    version := 0
    files := []
    dirs := [[]]
    treeSize := 0
    cache := if enableCache then some [] else none }

/-- DataView little-endian read of the given byte width; out of range throws
RangeError as in JS. -/
def readLEval (b : Bytes) : Nat → Nat → Nat
  | _, 0 => 0
  | i, w + 1 => b.getD i 0 + 256 * readLEval b (i + 1) w

def getLE (b : Bytes) (i width : Nat) : Except BStr Nat :=
  if i + width ≤ b.length then Except.ok (readLEval b i width)
  else Except.error (bstr "RangeError")

/-- parse-internal readString: bytes up to the next NUL, advancing past it;
no terminator throws.  TextDecoder on the raw bytes is modelled as the
identity at the byte level. -/
def readCString (bytes : Bytes) (i : Nat) : Except BStr (BStr × Nat) :=
  match indexOfFrom bytes 0 i with
  | none => Except.error (bstr "Failed to terminate string!")
  | some e => Except.ok (sliceB bytes i e, e + 1)

/-- parse-internal readFileInfo: the fixed 16-byte record plus 2 terminator
bytes, then preload-length raw bytes. -/
def readFileInfoAt (bytes : Bytes) (i : Nat) : Except BStr (VpkFileInfo × Nat) := do
  let crc ← getLE bytes i 4
  let preloadLength ← getLE bytes (i + 4) 2
  let archiveIndex ← getLE bytes (i + 6) 2
  let entryOffset ← getLE bytes (i + 8) 4
  let entryLength ← getLE bytes (i + 12) 4
  let i2 := i + 18
  Except.ok
    ({ crc := crc
       preloadBytes := sliceB bytes i2 (i2 + preloadLength)
       archiveIndex := archiveIndex
       offset := entryOffset
       length := entryLength }, i2 + preloadLength)

/-- Record-object key-preserving insert (JS object assignment keeps the
original insertion position of an existing key). -/
def assocInsert (l : List (BStr × VpkFileInfo)) (k : BStr) (v : VpkFileInfo) :
    List (BStr × VpkFileInfo) :=
  if l.any (fun e => e.1 == k) then
    l.map (fun e => if e.1 == k then (k, v) else e)
  else l ++ [(k, v)]

def assocFind (l : List (BStr × VpkFileInfo)) (k : BStr) : Option VpkFileInfo :=
  (l.find? (fun e => e.1 == k)).map (fun e => e.2)

def dirsInsert (l : List BStr) (x : BStr) : List BStr :=
  if l.contains x then l else l ++ [x]

/-- All subdirectory registrations performed for one tree path: the path, the
path with trailing slash, and every prefix cut at a slash of index at least
1 (the source while-loop over indexOf('/', i+1)). -/
def addDirs (dirs : List BStr) (p : BStr) : List BStr :=
  let dirs := dirsInsert dirs p
  let dirs := dirsInsert dirs (p ++ [47])
  (p.enum.filter (fun x => 1 ≤ x.1 ∧ x.2 = 47)).foldl
    (fun d x => dirsInsert d (p.take x.1)) dirs

/-- Inner tree loop over filenames of one (extension, directory) group.
Returns a possible thrown error together with the mutations performed so far
(the source mutates this.files incrementally). -/
def parseTreeFiles (bytes : Bytes) :
    Nat → Nat → BStr → BStr → List (BStr × VpkFileInfo) →
    Option BStr × Nat × List (BStr × VpkFileInfo)
  | 0, i, _, _, files => (some (bstr "fuel"), i, files)
  | fuel + 1, i, ext, dirPath, files =>
    match readCString bytes i with
    | .error e => (some e, i, files)
    | .ok (fname, i2) =>
      if fname = [] then (none, i2, files)
      else
        match readFileInfoAt bytes i2 with
        | .error e => (some e, i2, files)
        | .ok (info, i3) =>
          let fullpath := trimB (dirPath ++ [47] ++ fname ++ [46] ++ ext)
          parseTreeFiles bytes fuel i3 ext dirPath (assocInsert files fullpath info)

/-- Middle tree loop over directory paths of one extension group. -/
def parseTreePaths (bytes : Bytes) :
    Nat → Nat → BStr → List (BStr × VpkFileInfo) → List BStr →
    Option BStr × Nat × List (BStr × VpkFileInfo) × List BStr
  | 0, i, _, files, dirs => (some (bstr "fuel"), i, files, dirs)
  | fuel + 1, i, ext, files, dirs =>
    match readCString bytes i with
    | .error e => (some e, i, files, dirs)
    | .ok (p0, i2) =>
      if p0 = [] then (none, i2, files, dirs)
      else
        let p1 := if p0 = [32] then [] else p0
        let p2 := if p1 ≠ [] ∧ ¬ isPrefB [47] p1 then 47 :: p1 else p1
        let dirs2 := addDirs dirs p2
        match parseTreeFiles bytes (bytes.length + 2) i2 ext p2 files with
        | (some e, i3, files2) => (some e, i3, files2, dirs2)
        | (none, i3, files2) => parseTreePaths bytes fuel i3 ext files2 dirs2

/-- Outer tree loop over extensions. -/
def parseTreeExts (bytes : Bytes) :
    Nat → Nat → List (BStr × VpkFileInfo) → List BStr →
    Option BStr × List (BStr × VpkFileInfo) × List BStr
  | 0, _, files, dirs => (some (bstr "fuel"), files, dirs)
  | fuel + 1, i, files, dirs =>
    match readCString bytes i with
    | .error e => (some e, files, dirs)
    | .ok (ext, i2) =>
      if ext = [] then (none, files, dirs)
      else
        match parseTreePaths bytes (bytes.length + 2) i2 ext files dirs with
        | (some e, _, files2, dirs2) => (some e, files2, dirs2)
        | (none, i3, files2, dirs2) => parseTreeExts bytes fuel i3 files2 dirs2

/-- VpkSystem.parse.  Result components: the mutated instance, the returned
boolean or thrown error, and the list of backend paths read. -/
def VpkSystem.parse (st0 : VpkSystem) (env : Env) (force : Bool) :
    VpkSystem × Except BStr Bool × List BStr :=
  if ¬ force ∧ st0.version = -1 then (st0, Except.ok false, [])
  else
    let st := { st0 with version := -1 }
    match env.read st.path with
    | none => (st, Except.ok false, [st.path])
    | some bytes =>
      match getLE bytes 0 4 with
      | .error e => (st, Except.error e, [st.path])
      | .ok sig =>
        if sig ≠ 0x55aa1234 then (st, Except.error (bstr "Invalid vpk signature!"), [st.path])
        else
          match getLE bytes 4 4 with
          | .error e => (st, Except.error e, [st.path])
          | .ok ver =>
            if ver < 1 ∨ 2 < ver then (st, Except.error (bstr "Invalid vpk version!"), [st.path])
            else
              let SIZE_HEADER := if ver = 2 then 28 else 12
              let st := { st with version := (ver : Int) }
              match getLE bytes 8 4 with
              | .error e => (st, Except.error e, [st.path])
              | .ok ts =>
                let st := { st with treeSize := ts }
                let v2chk : Except BStr Unit :=
                  if ver = 2 then do
                    let _ ← getLE bytes 12 4
                    let _ ← getLE bytes 16 4
                    let _ ← getLE bytes 20 4
                    let _ ← getLE bytes 24 4
                    Except.ok ()
                  else Except.ok ()
                match v2chk with
                | .error e => (st, Except.error e, [st.path])
                | .ok _ =>
                  match parseTreeExts bytes (bytes.length + 2) SIZE_HEADER st.files st.dirs with
                  | (some e, files2, dirs2) =>
                    ({ st with files := files2, dirs := dirs2 }, Except.error e, [st.path])
                  | (none, files2, dirs2) =>
                    ({ st with files := files2, dirs := dirs2 }, Except.ok true, [st.path])

/-- VpkSystem.validate: lazily parse when NONE, swallowing thrown errors;
true exactly when the version is not INVALID afterwards. -/
def VpkSystem.validate (st : VpkSystem) (env : Env) : VpkSystem × Bool × List BStr :=
  let out :=
    if st.version = 0 then
      let r := VpkSystem.parse st env false
      (r.1, r.2.2)
    else (st, [])
  (out.1, out.1.version != -1, out.2)

/-- VpkSystem getArchivePath: the directory file itself for the inline
sentinel, otherwise the sibling chunk file with zero-padded index. -/
def VpkSystem.getArchivePath (st : VpkSystem) (index : Nat) : BStr :=
  if index = 0x7fff then st.path
  else pjoin st.root (st.name ++ [95] ++ padStart3 (natDec index) ++ bstr ".vpk")

def cacheLookup (c : Option (List (Nat × Bytes))) (idx : Nat) : Option Bytes :=
  match c with
  | none => none
  | some l => (l.find? (fun e => e.1 == idx)).map (fun e => e.2)

def cacheInsert (l : List (Nat × Bytes)) (k : Nat) (v : Bytes) : List (Nat × Bytes) :=
  if l.any (fun e => e.1 == k) then l.map (fun e => if e.1 == k then (k, v) else e)
  else l ++ [(k, v)]

/-- VpkSystem getArchiveData: serve from the chunk cache when a value is
present (any cached buffer is truthy), else read the chunk file, caching a
successful read. -/
def VpkSystem.getArchiveData (st : VpkSystem) (env : Env) (index : Nat) :
    VpkSystem × Option Bytes × List BStr :=
  match cacheLookup st.cache index with
  | some d => (st, some d, [])
  | none =>
    let p := VpkSystem.getArchivePath st index
    match env.read p with
    | none => (st, none, [p])
    | some d =>
      match st.cache with
      | none => (st, some d, [p])
      | some l => ({ st with cache := some (cacheInsert l index d) }, some d, [p])

/-- VpkSystem.getFileInfo. -/
def VpkSystem.getFileInfo (st : VpkSystem) (env : Env) (path : BStr) :
    VpkSystem × Option VpkFileInfo × List BStr :=
  let v := VpkSystem.validate st env
  if v.2.1 then (v.1, assocFind v.1.files path, v.2.2)
  else (v.1, none, v.2.2)

/-- VpkSystem.readFile.  A zero-length record returns a copy of its preload
bytes; otherwise the preload bytes are concatenated with the
[offset, offset+length) window of the chunk buffer (the directory file
itself, offset shifted by tree-size, for the inline sentinel).  Constructing
the window view throws RangeError when it exceeds the chunk buffer. -/
def VpkSystem.readFile (st : VpkSystem) (env : Env) (path : BStr) :
    VpkSystem × Except BStr (Option Bytes) × List BStr :=
  let v := VpkSystem.validate st env
  if ¬ v.2.1 then (v.1, Except.ok none, v.2.2)
  else
    let gi := VpkSystem.getFileInfo v.1 env path
    match gi.2.1 with
    | none => (gi.1, Except.ok none, v.2.2 ++ gi.2.2)
    | some info =>
      if info.length = 0 then (gi.1, Except.ok (some info.preloadBytes), v.2.2 ++ gi.2.2)
      else
        let off := info.offset + (if info.archiveIndex = 0x7fff then gi.1.treeSize else 0)
        let ga := VpkSystem.getArchiveData gi.1 env info.archiveIndex
        match ga.2.1 with
        | none => (ga.1, Except.ok none, v.2.2 ++ gi.2.2 ++ ga.2.2)
        | some ad =>
          if off + info.length ≤ ad.length then
            (ga.1, Except.ok (some (info.preloadBytes ++ (ad.drop off).take info.length)),
              v.2.2 ++ gi.2.2 ++ ga.2.2)
          else (ga.1, Except.error (bstr "RangeError"), v.2.2 ++ gi.2.2 ++ ga.2.2)

/-- One step of the readDirectory scan: accumulator is the output list and
the set of already-included directory prefixes. -/
def rdStep (pathQ : BStr) (acc : List (BStr × Nat) × List BStr) (kv : BStr × VpkFileInfo) :
    List (BStr × Nat) × List BStr :=
  if ¬ isPrefB pathQ kv.1 then acc
  else
    match indexOfFrom kv.1 47 (pathQ.length + 1) with
    | some slashPos =>
      if kv.1.take slashPos = pathQ then acc
      else if acc.2.contains (kv.1.take slashPos) then acc
      else (acc.1 ++ [(basenameB (kv.1.take slashPos), 2)], acc.2 ++ [kv.1.take slashPos])
    | none => (acc.1 ++ [(basenameB kv.1, 1)], acc.2)

/-- VpkSystem.readDirectory: scan the file table in insertion order. -/
def VpkSystem.readDirectory (st : VpkSystem) (env : Env) (pathQ : BStr) :
    VpkSystem × Option (List (BStr × Nat)) × List BStr :=
  let v := VpkSystem.validate st env
  if ¬ v.2.1 then (v.1, none, v.2.2)
  else (v.1, some (v.1.files.foldl (rdStep pathQ) ([], [])).1, v.2.2)

/-- VpkSystem.stat: file-table hit first (always reported as a File of the
record length), then directory-set membership. -/
def VpkSystem.stat (st : VpkSystem) (env : Env) (path : BStr) :
    VpkSystem × Option FStat × List BStr :=
  let gi := VpkSystem.getFileInfo st env path
  match gi.2.1 with
  | some f => (gi.1, some { type := 1, ctime := 0, mtime := 0, size := f.length }, gi.2.2)
  | none =>
    if gi.1.dirs.contains path then
      (gi.1, some { type := 2, ctime := 0, mtime := 0, size := 0 }, gi.2.2)
    else (gi.1, none, gi.2.2)

deriving instance DecidableEq for Except

/-! ## src/game.ts — SteamCache (the install resolver)

The fs handle is the explicit environment; the shared cross-instance registry
(SteamCache.get / cachecache) is process bookkeeping outside the per-instance
semantics verified here. -/

structure SteamCache where
  root : BStr
  applibcache : List (BStr × BStr)
  appdircache : List (BStr × Option BStr)
  initialized : Nat
deriving Repr, DecidableEq

def sAssocFind (l : List (BStr × BStr)) (k : BStr) : Option BStr :=
  (l.find? (fun e => e.1 == k)).map (fun e => e.2)

def sAssocInsert (l : List (BStr × BStr)) (k : BStr) (v : BStr) : List (BStr × BStr) :=
  if l.any (fun e => e.1 == k) then l.map (fun e => if e.1 == k then (k, v) else e)
  else l ++ [(k, v)]

def dAssocFind (l : List (BStr × Option BStr)) (k : BStr) : Option (Option BStr) :=
  (l.find? (fun e => e.1 == k)).map (fun e => e.2)

def dAssocMem (l : List (BStr × Option BStr)) (k : BStr) : Bool :=
  l.any (fun e => e.1 == k)

def dAssocInsert (l : List (BStr × Option BStr)) (k : BStr) (v : Option BStr) :
    List (BStr × Option BStr) :=
  if l.any (fun e => e.1 == k) then l.map (fun e => if e.1 == k then (k, v) else e)
  else l ++ [(k, v)]

/-- One library section of libraryfolders.vdf: its path value (with
backslash pairs rewritten to slashes) and the keys under apps, each appid
mapped to the library path; a missing path or apps accessor throws. -/
def steamLibStep (acc : Except BStr (List (BStr × BStr))) (c : KVChild) :
    Except BStr (List (BStr × BStr)) :=
  match acc with
  | .error e => .error e
  | .ok cache =>
    match c with
    | .leaf _ _ => .ok cache
    | .node _ children =>
      match kvPair children (bstr "path") with
      | .error e => .error e
      | .ok rawPath =>
        let libPath := replaceAll rawPath [92, 92] [47]
        match kvDir children (bstr "apps") with
        | .error e => .error e
        | .ok apps => .ok (apps.foldl (fun cc a => sAssocInsert cc (kvKey a) libPath) cache)

/-- SteamCache.parse: read libraryfolders.vdf once, populating the
appid-to-library map; sticky in both directions. -/
def SteamCache.parse (s : SteamCache) (env : Env) :
    SteamCache × Except BStr Bool × List BStr :=
  if s.initialized ≠ 0 then (s, Except.ok (s.initialized == 1), [])
  else
    let s := { s with initialized := 2 }
    let p := pjoin s.root (bstr "steamapps/libraryfolders.vdf")
    match readKV env p with
    | none => (s, Except.ok false, [p])
    | some doc =>
      match kvDir doc (bstr "libraryfolders") with
      | .error e => (s, Except.error e, [p])
      | .ok libs =>
        match libs.foldl steamLibStep (Except.ok s.applibcache) with
        | .error e => (s, Except.error e, [p])
        | .ok cache => ({ s with applibcache := cache, initialized := 1 }, Except.ok true, [p])

/-- The per-app manifest path read by SteamCache.parseGame. -/
def manifestPath (libPath appid : BStr) : BStr :=
  pjoin libPath (bstr "steamapps/appmanifest_" ++ appid ++ bstr ".acf")

/-- The manifest interrogation inside SteamCache.parseGame: the AppState
section's installdir value, either accessor throwing. -/
def manifestInstallDir (doc : KVDoc) : Except BStr BStr := do
  let appRoot ← kvDir doc (bstr "AppState")
  kvPair appRoot (bstr "installdir")

/-- SteamCache.parseGame: unknown (or empty) library path returns absent; a
cached entry short-circuits (returning absent) unless forced; otherwise the
per-app manifest is read — an unreadable manifest returns absent without
touching the cache, an unparsable one caches a negative entry. -/
def SteamCache.parseGame (s : SteamCache) (env : Env) (appid : BStr) (force : Bool) :
    SteamCache × Option BStr × List BStr :=
  match sAssocFind s.applibcache appid with
  | none => (s, none, [])
  | some libPath =>
    if libPath = [] then (s, none, [])
    else if ¬ force ∧ dAssocMem s.appdircache appid then (s, none, [])
    else
      match readKV env (manifestPath libPath appid) with
      | none => (s, none, [manifestPath libPath appid])
      | some doc =>
        match manifestInstallDir doc with
        | .error _ =>
          let s2 := { s with appdircache := dAssocInsert s.appdircache appid none }
          (s2, (dAssocFind s2.appdircache appid).join, [manifestPath libPath appid])
        | .ok appDir =>
          let v := pjoinList [libPath, bstr "steamapps/common", appDir ++ [47]]
          let s2 := { s with appdircache := dAssocInsert s.appdircache appid (some v) }
          (s2, (dAssocFind s2.appdircache appid).join, [manifestPath libPath appid])

/-- SteamCache.findGame: lazy parse, then a cache-miss triggers parseGame,
then the cached value (possibly a cached negative) is returned. -/
def SteamCache.findGame (s : SteamCache) (env : Env) (appid : BStr) :
    SteamCache × Except BStr (Option BStr) × List BStr :=
  let st1 :=
    if s.initialized = 0 then
      let r := SteamCache.parse s env
      (r.1, r.2.1.map (fun _ => ()), r.2.2)
    else (s, Except.ok (), [])
  match st1.2.1 with
  | .error e => (st1.1, Except.error e, st1.2.2)
  | .ok _ =>
    let st2 :=
      if ¬ dAssocMem st1.1.appdircache appid then
        let r := SteamCache.parseGame st1.1 env appid false
        (r.1, r.2.2)
      else (st1.1, [])
    (st2.1, Except.ok ((dAssocFind st2.1.appdircache appid).join), st1.2.2 ++ st2.2)

/-! ## src/game.ts — FolderSystem and the provider union

GameSystem stores (qualifier-tags, provider) pairs whose provider is a
VpkSystem or a FolderSystem; the two are modelled as a closed sum.  The
query projections below are the provider method bodies: FolderSystem methods
path-join into the backing filesystem and catch backend throws (the backend
contract already returns absent for not-found), VpkSystem methods are the
definitions above with the state component projected away — for validated
providers under a fixed backend the only state mutation a query performs is
filling the chunk cache with exactly the bytes the backend returns, which
does not change any later query result. -/

inductive ProvSys where
  | vpk (st : VpkSystem)
  | fold (root : BStr)
deriving Repr, DecidableEq

/-- The kind discriminant of the second game.ts version (vpk or dir). -/
def ProvSys.isVpkP : ProvSys → Bool
  | .vpk _ => true
  | .fold _ => false

def ProvSys.readFileR : ProvSys → Env → BStr → Except BStr (Option Bytes)
  | .vpk st, env, p => (VpkSystem.readFile st env p).2.1
  | .fold r, env, p => Except.ok (env.read (pjoin r p))

def ProvSys.readDirR : ProvSys → Env → BStr → Option (List (BStr × Nat))
  | .vpk st, env, p => (VpkSystem.readDirectory st env p).2.1
  | .fold r, env, p => env.rdir (pjoin r p)

def ProvSys.statR : ProvSys → Env → BStr → Option FStat
  | .vpk st, env, p => (VpkSystem.stat st env p).2.1
  | .fold r, env, p => env.statf (pjoin r p)

/-- getPath of either provider (VpkSystem joins under its directory-file
path, FolderSystem under its root). -/
def ProvSys.getPathR : ProvSys → BStr → BStr
  | .vpk st, p => pjoin st.path p
  | .fold r, p => pjoin r p

/-- Provider validation: VpkSystem.validate (performing/confirming its
parse), FolderSystem existence of the root. -/
def ProvSys.validateP : ProvSys → Env → ProvSys × Bool
  | .vpk st, env =>
    let v := VpkSystem.validate st env
    (.vpk v.1, v.2.1)
  | .fold r, env => (.fold r, (env.statf r).isSome)

abbrev PEntry := List BStr × ProvSys

def pentryPath (e : PEntry) : BStr :=
  match e.2 with
  | .vpk st => st.path
  | .fold r => r

/-! ## src/game.ts — GameSystem -/

/-- InitState: 0 None, 1 Ready, 2 Error. -/
structure GameSystem where
  modroot : BStr
  name : Option BStr
  appid : Option BStr
  gameroot : Option BStr
  initialized : Nat
  steam : SteamCache
  providers : List PEntry
  providersSorted : List PEntry
deriving Repr, DecidableEq

/-- parseSearchPath of the second game.ts version: case-insensitive prefix
substitution of the gameinfo-path and all-source-engine-paths tokens,
otherwise resolution under the resolved game install directory (absent when
that could not be resolved). -/
def parseSearchPath (path : BStr) (gamePath : Option BStr) (modPath giPath : BStr) :
    Option BStr :=
  let pl := lowerB path
  if isPrefB (bstr "|gameinfo_path|") pl then
    some (pjoin giPath (path.drop 15))
  else if isPrefB (bstr "|all_source_engine_paths|") pl then
    some (pjoin modPath (path.drop 25))
  else
    match gamePath with
    | none => none
    | some gp => some (pjoin gp path)

/-- parseGlobSearchPath: backends without real-disk glob capability treat
the expression as one literal path; the Node backend expands it through the
glob oracle. -/
def parseGlobSearchPath (env : Env) (sp : BStr) (gamePath : Option BStr)
    (modPath giPath : BStr) : Option (List BStr) :=
  match parseSearchPath sp gamePath modPath giPath with
  | none => none
  | some p =>
    if p = [] then none
    else if ¬ env.isNode then some [p]
    else some (env.glob p)

/-- The unconditional rewrite applied to every search-path declaration value
ending in .vpk, before any resolution: the single-file name is replaced by
the directory-indexed name. -/
def rewriteVpkSearchPath (raw : BStr) : BStr :=
  if isSuffB (bstr ".vpk") raw then raw.take (raw.length - 4) ++ bstr "_dir.vpk" else raw

/-- The probe used by mount declarations only: a stat hit at the single-file
name commits to it, else the directory-indexed name is used. -/
def resolveMountVpkPath (env : Env) (base : BStr) : BStr :=
  if (env.statf (base ++ bstr ".vpk")).isSome then base ++ bstr ".vpk"
  else base ++ bstr "_dir.vpk"

/-- One mount content item: a vpk item probes via resolveMountVpkPath, a dir
item becomes a FolderSystem, anything else is skipped; all are tagged with
the fixed game qualifier. -/
def mountItemProvider (env : Env) (mroot folderKey : BStr) : KVChild → Option PEntry
  | .node _ _ => none
  | .leaf k v =>
    if k == bstr "vpk" then
      some ([bstr "game"],
        ProvSys.vpk (VpkSystem.new (resolveMountVpkPath env (pjoinList [mroot, folderKey, v])) true))
    else if k == bstr "dir" then
      some ([bstr "game"], ProvSys.fold (pjoinList [mroot, folderKey, v]))
    else none

/-- One mount declaration: leafs are skipped, an explicit enabled = false
flag skips it, an unresolvable target app is skipped (non-fatal), else every
(subfolder, item) pair contributes a provider. -/
def processMount (env : Env) (acc : Except BStr (SteamCache × List PEntry)) (m : KVChild) :
    Except BStr (SteamCache × List PEntry) :=
  match acc with
  | .error e => .error e
  | .ok (steam, provs) =>
    match m with
    | .leaf _ _ => .ok (steam, provs)
    | .node mkey children =>
      let enabledOff :=
        match kvPairOpt children (bstr "enabled") with
        | some v => kvBool v == false
        | none => false
      if enabledOff then .ok (steam, provs)
      else
        let fg := SteamCache.findGame steam env mkey
        match fg.2.1 with
        | .error e => .error e
        | .ok none => .ok (fg.1, provs)
        | .ok (some mroot) =>
          let newProvs := children.foldl (fun np mf =>
            match mf with
            | .leaf _ _ => np
            | .node fkey fchildren => np ++ fchildren.filterMap (mountItemProvider env mroot fkey)) []
          .ok (fg.1, provs ++ newProvs)

/-- One search-path declaration: sections are skipped; the value is first
rewritten by rewriteVpkSearchPath, resolved (a failure drops the entry), and
each concrete path becomes a VpkSystem or FolderSystem provider tagged with
the plus-split lower-cased key. -/
def processSearchPath (env : Env) (gamePath : Option BStr) (modPath giPath : BStr)
    (provs : List PEntry) (c : KVChild) : List PEntry :=
  match c with
  | .node _ _ => provs
  | .leaf key v =>
    let rawPath := rewriteVpkSearchPath v
    match parseGlobSearchPath env rawPath gamePath modPath giPath with
    | none => provs
    | some parsed =>
      provs ++ parsed.map (fun pp =>
        let quals := (splitOnByte 43 (lowerB key)).map trimB
        if isSuffB (bstr ".vpk") pp then (quals, ProvSys.vpk (VpkSystem.new pp true))
        else (quals, ProvSys.fold pp))

/-- The validation pass: each provider is validated (updating it, since
VpkSystem.validate may perform the parse) and dropped on failure. -/
def validateProviders (env : Env) : List PEntry → List PEntry
  | [] => []
  | e :: rest =>
    let v := e.2.validateP env
    if v.2 then (e.1, v.1) :: validateProviders env rest
    else validateProviders env rest

/-- The sort key of the archive-priority comparator: comparator a b =
key b - key a with key 1 for vpk-kind providers. -/
def sortKey (e : PEntry) : Int := if e.2.isVpkP then 1 else 0

/-- Stable insertion of the JS stable sort: a later element passes every
element it does not strictly precede under the comparator. -/
def insertStable (x : PEntry) : List PEntry → List PEntry
  | [] => [x]
  | y :: ys => if sortKey y - sortKey x < 0 then x :: y :: ys else y :: insertStable x ys

/-- Array.prototype.toSorted with the archive-priority comparator, modelled
as a stable insertion sort (the JS sort is specified stable). -/
def jsToSorted (l : List PEntry) : List PEntry :=
  l.foldl (fun acc x => insertStable x acc) []

/-- GameSystem.parse.  The Error state is entered first; a failed
configuration read returns false leaving it; a structural accessor failure
throws out (caught by validate).  On success both the declaration-order
provider list and the archive-prioritized view are retained and the state
becomes Ready. -/
def GameSystem.parse (g0 : GameSystem) (env : Env) : GameSystem × Except BStr Bool :=
  let g := { g0 with initialized := 2 }
  match readKV env (pjoin g.modroot (bstr "gameinfo.txt")) with
  | none => (g, Except.ok false)
  | some gameinfo =>
    match kvDir gameinfo (bstr "GameInfo") with
    | .error e => (g, Except.error e)
    | .ok giNode =>
      match kvDir giNode (bstr "FileSystem") with
      | .error e => (g, Except.error e)
      | .ok fsNode =>
        match kvPair fsNode (bstr "SteamAppId") with
        | .error e => (g, Except.error e)
        | .ok giAppid =>
          match kvDir fsNode (bstr "SearchPaths") with
          | .error e => (g, Except.error e)
          | .ok giPaths =>
            match kvPair giNode (bstr "game") with
            | .error e => (g, Except.error e)
            | .ok gname =>
              let g := { g with name := some gname, appid := some giAppid }
              let dirGi := g.modroot
              let dirCwd := pnormalize (pjoin dirGi (bstr "../"))
              let fg := SteamCache.findGame g.steam env giAppid
              match fg.2.1 with
              | .error e => ({ g with steam := fg.1 }, Except.error e)
              | .ok dirGame =>
                let g := { g with steam := fg.1, gameroot := dirGame }
                let mounts0 := (kvDirOpt giNode (bstr "mount")).getD []
                let mounts := mounts0 ++
                  (match readKV env (pjoinList [g.modroot, bstr "cfg", bstr "mounts.kv"]) with
                   | some d => d
                   | none => [])
                match mounts.foldl (processMount env) (Except.ok (g.steam, g.providers)) with
                | .error e => (g, Except.error e)
                | .ok (steam2, provs1) =>
                  let g := { g with steam := steam2 }
                  let provs2 := giPaths.foldl (processSearchPath env dirGame dirCwd dirGi) provs1
                  let working := validateProviders env provs2
                  ({ g with providers := working, providersSorted := jsToSorted working,
                            initialized := 1 }, Except.ok true)

/-- GameSystem.validate: lazy parse only from the None state; thrown parse
errors are caught and become false.  The third component records whether a
parse was attempted. -/
def GameSystem.validate (g : GameSystem) (env : Env) : GameSystem × Bool × Bool :=
  if g.initialized = 0 then
    match GameSystem.parse g env with
    | (g1, .error _) => (g1, false, true)
    | (g1, .ok _) => (g1, g1.initialized == 1, true)
  else (g, g.initialized == 1, false)

/-- A provider is skipped when a (truthy) qualifier was requested that is
absent from its tag set. -/
def qualSkip (q : Option BStr) (quals : List BStr) : Bool :=
  match q with
  | none => false
  | some s => if s = [] then false else ¬ quals.contains s

/-- The readFile provider walk: first non-absent result wins; a thrown
provider error propagates. -/
def gsFileLoop (env : Env) (p : BStr) (q : Option BStr) :
    List PEntry → Except BStr (Option Bytes)
  | [] => Except.ok none
  | e :: rest =>
    if qualSkip q e.1 then gsFileLoop env p q rest
    else
      match e.2.readFileR env p with
      | .error err => .error err
      | .ok none => gsFileLoop env p q rest
      | .ok (some f) => .ok (some f)

/-- GameSystem.readFile: archive-prioritized order when preferVpk is
requested, declaration order otherwise. -/
def GameSystem.readFile (g : GameSystem) (env : Env) (p : BStr) (q : Option BStr)
    (preferVpk : Bool) : GameSystem × Except BStr (Option Bytes) × Bool :=
  let v := GameSystem.validate g env
  if ¬ v.2.1 then (v.1, Except.ok none, v.2.2)
  else (v.1, gsFileLoop env p q (if preferVpk then v.1.providersSorted else v.1.providers), v.2.2)

/-- The getPath provider walk: the first provider whose stat reports the
path existing supplies its resolved backing path. -/
def gsPathLoop (env : Env) (p : BStr) (q : Option BStr) : List PEntry → Option BStr
  | [] => none
  | e :: rest =>
    if qualSkip q e.1 then gsPathLoop env p q rest
    else
      match e.2.statR env p with
      | none => gsPathLoop env p q rest
      | some _ => some (e.2.getPathR p)

def GameSystem.getPath (g : GameSystem) (env : Env) (p : BStr) (q : Option BStr)
    (preferVpk : Bool) : GameSystem × Option BStr × Bool :=
  let v := GameSystem.validate g env
  if ¬ v.2.1 then (v.1, none, v.2.2)
  else (v.1, gsPathLoop env p q (if preferVpk then v.1.providersSorted else v.1.providers), v.2.2)

/-- The readDirectory accumulation of one provider listing: names already
seen are skipped, new names are appended together with their kind. -/
def dedupeInto (acc : List BStr × List (BStr × Nat)) (files : List (BStr × Nat)) :
    List BStr × List (BStr × Nat) :=
  files.foldl (fun a f => if a.1.contains f.1 then a else (a.1 ++ [f.1], a.2 ++ [f])) acc

/-- The readDirectory provider walk: every qualifying provider is consulted;
the exists flag records whether any reported the directory. -/
def gsRDLoop (env : Env) (p : BStr) (q : Option BStr) :
    List PEntry → Bool × List BStr × List (BStr × Nat) → Bool × List BStr × List (BStr × Nat)
  | [], acc => acc
  | e :: rest, acc =>
    if qualSkip q e.1 then gsRDLoop env p q rest acc
    else
      match e.2.readDirR env p with
      | none => gsRDLoop env p q rest acc
      | some files =>
        let d := dedupeInto (acc.2.1, acc.2.2) files
        gsRDLoop env p q rest (true, d.1, d.2)

/-- GameSystem.readDirectory: union in declaration order, de-duplicated by
name, absent only when no qualifying provider reported the directory. -/
def GameSystem.readDirectory (g : GameSystem) (env : Env) (p : BStr) (q : Option BStr) :
    GameSystem × Option (List (BStr × Nat)) × Bool :=
  let v := GameSystem.validate g env
  if ¬ v.2.1 then (v.1, none, v.2.2)
  else
    let r := gsRDLoop env p q v.1.providers (false, [], [])
    (v.1, if r.1 then some r.2.2 else none, v.2.2)

/-- The stat provider walk. -/
def gsStatLoop (env : Env) (p : BStr) (q : Option BStr) : List PEntry → Option FStat
  | [] => none
  | e :: rest =>
    if qualSkip q e.1 then gsStatLoop env p q rest
    else
      match e.2.statR env p with
      | none => gsStatLoop env p q rest
      | some f => some f

/-- GameSystem.stat: always walks the archive-prioritized ordering. -/
def GameSystem.stat (g : GameSystem) (env : Env) (p : BStr) (q : Option BStr) :
    GameSystem × Option FStat × Bool :=
  let v := GameSystem.validate g env
  if ¬ v.2.1 then (v.1, none, v.2.2)
  else (v.1, gsStatLoop env p q v.1.providersSorted, v.2.2)

/-! ## Specification-side descriptions

Independent characterizations used by the claim statements: the qualifying
sub-list of a provider walk, the per-name first-occurrence union, and the
stable archive-first partition. -/

/-- The providers a query with the given qualifier consults. -/
def qualifying (q : Option BStr) (provs : List PEntry) : List PEntry :=
  provs.filter (fun e => ! qualSkip q e.1)

/-- The non-absent listings of the qualifying providers, in declaration
order. -/
def collectLists (env : Env) (p : BStr) (q : Option BStr) (provs : List PEntry) :
    List (List (BStr × Nat)) :=
  (qualifying q provs).filterMap (fun e => e.2.readDirR env p)

/-- First-occurrence de-duplication by name, excluding an initial seen set. -/
def dedupeSeen (seen : List BStr) : List (BStr × Nat) → List (BStr × Nat)
  | [] => []
  | f :: rest =>
    if seen.contains f.1 then dedupeSeen seen rest
    else f :: dedupeSeen (seen ++ [f.1]) rest

/-- The kind recorded at the first occurrence of a name. -/
def firstHit (l : List (BStr × Nat)) (n : BStr) : Option Nat :=
  (l.find? (fun f => f.1 == n)).map (fun f => f.2)

/-! ## Concrete instances for witnesses and counterexamples -/

/-- A minimal wellformed version-1 directory file: signature, version 1,
tree-size 0, one extension txt, the root directory (single space), one file
f with an empty 16-byte record (length 0), and the three terminators. -/
def dirBytes1 : Bytes :=
  [0x34, 0x12, 0xaa, 0x55, 1, 0, 0, 0, 0, 0, 0, 0,
   116, 120, 116, 0,
   32, 0,
   102, 0,
   0, 0, 0, 0, 0, 0, 0, 0, 0, 0, 0, 0, 0, 0, 0, 0, 255, 255,
   0, 0, 0]

def emptyEnv : Env :=
  { read := fun _ => none
    rdir := fun _ => none
    statf := fun _ => none
    parseKV := fun _ => none
    isNode := false
    glob := fun _ => [] }

/-- C1 witness: a Ready archive whose one record points into external chunk
000 at offset 1, length 2, preload bytes 10, 11. -/
def stC1 : VpkSystem :=
  { path := bstr "a/pak01_dir.vpk", root := bstr "a", name := bstr "pak01", single := false
    version := 1
    files := [(bstr "/f.txt",
      { crc := 0, preloadBytes := [10, 11], archiveIndex := 0, offset := 1, length := 2 })]
    dirs := [[], [47]], treeSize := 0, cache := some [] }

def envC1 : Env :=
  { emptyEnv with read := fun p => if p == bstr "a/pak01_000.vpk" then some [9, 8, 7, 6] else none }

/-- C5 counterexample: the record's window [0, 4) exceeds the 2-byte chunk
file. -/
def stC5 : VpkSystem :=
  { path := bstr "a/pak01_dir.vpk", root := bstr "a", name := bstr "pak01", single := false
    version := 1
    files := [(bstr "/f.txt",
       { crc := 0, preloadBytes := [], archiveIndex := 0, offset := 0, length := 4 }),
      (bstr "/g.txt",
       { crc := 0, preloadBytes := [5], archiveIndex := 1, offset := 0, length := 1 })]
    dirs := [[], [47]], treeSize := 0, cache := some [] }

def envC5 : Env :=
  { emptyEnv with read := fun p =>
      if p == bstr "a/pak01_000.vpk" then some [1, 2]
      else if p == bstr "a/pak01_001.vpk" then some [3] else none }

/-- C5 witness env: chunk 000 is missing entirely, chunk 001 is present. -/
def envC5b : Env :=
  { emptyEnv with read := fun p => if p == bstr "a/pak01_001.vpk" then some [3] else none }

/-- C6 counterexample env: the backing directory file parses successfully. -/
def envC6 : Env :=
  { emptyEnv with read := fun p => if p == bstr "a/pak01_dir.vpk" then some dirBytes1 else none }

/-- C7 counterexample: a Ready archive with one file, queried under a path
that is a string prefix of nothing. -/
def stC7 : VpkSystem :=
  { path := bstr "a/pak01_dir.vpk", root := bstr "a", name := bstr "pak01", single := false
    version := 1
    files := [(bstr "/maps/a.txt",
      { crc := 0, preloadBytes := [], archiveIndex := 0x7fff, offset := 0, length := 0 })]
    dirs := [[], bstr "/maps"], treeSize := 0, cache := some [] }

/-- C10 witness: a Ready archive holding /maps/foo.txt, queried at the
component-boundary-violating path /ma. -/
def stC10 : VpkSystem :=
  { path := bstr "a/pak01_dir.vpk", root := bstr "a", name := bstr "pak01", single := false
    version := 1
    files := [(bstr "/maps/foo.txt",
      { crc := 0, preloadBytes := [], archiveIndex := 0x7fff, offset := 0, length := 0 })]
    dirs := [[], bstr "/maps"], treeSize := 0, cache := some [] }

/-- C2 witness: one folder provider and one archive provider, the folder
declared first; both report the name x (with different kinds). -/
def stC2v : VpkSystem :=
  { path := bstr "a/pak01_dir.vpk", root := bstr "a", name := bstr "pak01", single := false
    version := 1
    files := [(bstr "/maps/x/a.txt",
      { crc := 0, preloadBytes := [], archiveIndex := 0x7fff, offset := 0, length := 0 })]
    dirs := [[], bstr "/maps", bstr "/maps/x"], treeSize := 0, cache := some [] }

def envC2 : Env :=
  { emptyEnv with rdir := fun p =>
      if p == bstr "/loose/maps" then some [(bstr "x", 1), (bstr "y", 1)] else none }

def steamIdle : SteamCache :=
  { root := bstr "/steam", applibcache := [], appdircache := [], initialized := 1 }

def gC2 : GameSystem :=
  { modroot := bstr "/mod", name := none, appid := none, gameroot := none
    initialized := 1, steam := steamIdle
    providers := [([bstr "game"], ProvSys.fold (bstr "/loose")), ([bstr "game"], ProvSys.vpk stC2v)]
    providersSorted := jsToSorted
      [([bstr "game"], ProvSys.fold (bstr "/loose")), ([bstr "game"], ProvSys.vpk stC2v)] }

/-- C3 witness: a folder provider declared before an archive provider, both
serving the same path. -/
def stC3v : VpkSystem :=
  { path := bstr "a/pak01_dir.vpk", root := bstr "a", name := bstr "pak01", single := false
    version := 1
    files := [(bstr "/f.txt",
      { crc := 0, preloadBytes := [7], archiveIndex := 0, offset := 0, length := 0 })]
    dirs := [[], [47]], treeSize := 0, cache := some [] }

def envC3 : Env :=
  { emptyEnv with
      read := fun p => if p == bstr "/L/f.txt" then some [1] else none
      statf := fun p => if p == bstr "/L/f.txt" then some { type := 1, ctime := 0, mtime := 0, size := 1 } else none }

def gC3 : GameSystem :=
  { modroot := bstr "/mod", name := none, appid := none, gameroot := none
    initialized := 1, steam := steamIdle
    providers := [([bstr "game"], ProvSys.fold (bstr "/L")), ([bstr "game"], ProvSys.vpk stC3v)]
    providersSorted := jsToSorted
      [([bstr "game"], ProvSys.fold (bstr "/L")), ([bstr "game"], ProvSys.vpk stC3v)] }

/-- C4 witness: the configuration file is unreadable. -/
def gC4 : GameSystem :=
  { modroot := bstr "/mod", name := none, appid := none, gameroot := none
    initialized := 0, steam := steamIdle, providers := [], providersSorted := [] }

/-- C8 counterexample: the gameinfo declares one search path naming a
single-file archive that really exists on disk, next to its directory-form
sibling. -/
def giDocC8 : KVDoc :=
  [KVChild.node (bstr "GameInfo")
    [KVChild.leaf (bstr "game") (bstr "Test"),
     KVChild.node (bstr "FileSystem")
       [KVChild.leaf (bstr "SteamAppId") (bstr "999"),
        KVChild.node (bstr "SearchPaths")
          [KVChild.leaf (bstr "Game") (bstr "|gameinfo_path|pak01.vpk")]]]]

def envC8 : Env :=
  { read := fun p =>
      if p == bstr "/mod/gameinfo.txt" then some [1]
      else if p == bstr "/mod/pak01_dir.vpk" then some dirBytes1
      else if p == bstr "/mod/pak01.vpk" then some [2]
      else none
    rdir := fun _ => none
    statf := fun p =>
      if p == bstr "/mod/pak01.vpk" then some { type := 1, ctime := 0, mtime := 0, size := 4 }
      else none
    parseKV := fun b => if b == [1] then some giDocC8 else none
    isNode := false
    glob := fun _ => [] }

def gC8 : GameSystem :=
  { modroot := bstr "/mod", name := none, appid := none, gameroot := none
    initialized := 0, steam := steamIdle, providers := [], providersSorted := [] }

/-- C9 counterexample: the library map knows appid 240, but its manifest
cannot be read. -/
def sC9 : SteamCache :=
  { root := bstr "/steam", applibcache := [(bstr "240", bstr "/lib")]
    appdircache := [], initialized := 1 }

/-- C9 witness: a cache already holding a negative entry for appid 240. -/
def sC9b : SteamCache :=
  { root := bstr "/steam", applibcache := [(bstr "240", bstr "/lib")]
    appdircache := [(bstr "240", none)], initialized := 1 }

/-- C6 witness: a Ready instance (as left by a successful first parse). -/
def stC6w : VpkSystem :=
  { path := bstr "a/pak01_dir.vpk", root := bstr "a", name := bstr "pak01", single := false
    version := 1
    files := [(bstr "/f.txt",
      { crc := 0, preloadBytes := [], archiveIndex := 0, offset := 0, length := 0 })]
    dirs := [[], [47]], treeSize := 0, cache := some [] }

/-- Invariant of the readDirectory scan: every recorded directory prefix has
already been reported. -/
def rdInv (acc : List (BStr × Nat) × List BStr) : Prop :=
  ∀ d ∈ acc.2, (basenameB d, 2) ∈ acc.1

/-! ## Helper lemmas about VpkSystem queries on Ready instances -/

theorem validate_ready (st : VpkSystem) (env : Env) (h : st.version = 1 ∨ st.version = 2) :
    VpkSystem.validate st env = (st, true, []) := by
  rcases h with h | h <;> simp [VpkSystem.validate, h]

theorem getFileInfo_ready (st : VpkSystem) (env : Env) (p : BStr)
    (h : st.version = 1 ∨ st.version = 2) :
    VpkSystem.getFileInfo st env p = (st, assocFind st.files p, []) := by
  simp [VpkSystem.getFileInfo, validate_ready st env h]

theorem getArchiveData_missing (st : VpkSystem) (env : Env) (i : Nat)
    (hc : cacheLookup st.cache i = none)
    (hm : env.read (VpkSystem.getArchivePath st i) = none) :
    VpkSystem.getArchiveData st env i = (st, none, [VpkSystem.getArchivePath st i]) := by
  simp [VpkSystem.getArchiveData, hc, hm]

theorem getArchiveData_found (st : VpkSystem) (env : Env) (i : Nat) (d : Bytes)
    (hc : cacheLookup st.cache i = none)
    (hd : env.read (VpkSystem.getArchivePath st i) = some d) :
    (VpkSystem.getArchiveData st env i).2.1 = some d ∧
      (VpkSystem.getArchiveData st env i).2.2 = [VpkSystem.getArchivePath st i] := by
  cases hcache : st.cache <;> rw [hcache] at hc <;>
    simp [VpkSystem.getArchiveData, hc, hd, hcache]

theorem readFile_preload (st : VpkSystem) (env : Env) (p : BStr) (info : VpkFileInfo)
    (h1 : st.version = 1 ∨ st.version = 2)
    (h2 : assocFind st.files p = some info) (h0 : info.length = 0) :
    VpkSystem.readFile st env p = (st, Except.ok (some info.preloadBytes), []) := by
  simp [VpkSystem.readFile, validate_ready st env h1, getFileInfo_ready st env p h1, h2, h0]

theorem readFile_chunk (st : VpkSystem) (env : Env) (p : BStr) (info : VpkFileInfo) (d : Bytes)
    (h1 : st.version = 1 ∨ st.version = 2)
    (h2 : assocFind st.files p = some info) (h0 : info.length ≠ 0)
    (hc : cacheLookup st.cache info.archiveIndex = none)
    (hd : env.read (VpkSystem.getArchivePath st info.archiveIndex) = some d)
    (hb : info.offset + (if info.archiveIndex = 0x7fff then st.treeSize else 0) + info.length
        ≤ d.length) :
    (VpkSystem.readFile st env p).2.1 =
      Except.ok (some (info.preloadBytes ++
        (d.drop (info.offset + (if info.archiveIndex = 0x7fff then st.treeSize else 0))).take
          info.length)) := by
  have hga := getArchiveData_found st env info.archiveIndex d hc hd
  simp [VpkSystem.readFile, validate_ready st env h1, getFileInfo_ready st env p h1, h2, h0,
    hga.1, hb]

theorem readFile_chunk_missing (st : VpkSystem) (env : Env) (p : BStr) (info : VpkFileInfo)
    (h1 : st.version = 1 ∨ st.version = 2)
    (h2 : assocFind st.files p = some info) (h0 : info.length ≠ 0)
    (hc : cacheLookup st.cache info.archiveIndex = none)
    (hm : env.read (VpkSystem.getArchivePath st info.archiveIndex) = none) :
    VpkSystem.readFile st env p =
      (st, Except.ok none, [VpkSystem.getArchivePath st info.archiveIndex]) := by
  simp [VpkSystem.readFile, validate_ready st env h1, getFileInfo_ready st env p h1, h2, h0,
    getArchiveData_missing st env info.archiveIndex hc hm]

theorem rdFold_nomatch (p : BStr) (l : List (BStr × VpkFileInfo)) :
    ∀ acc, (∀ kv ∈ l, isPrefB p kv.1 = false) → l.foldl (rdStep p) acc = acc := by
  induction l with
  | nil => intro acc _; rfl
  | cons kv rest ih =>
    intro acc h
    have h1 : isPrefB p kv.1 = false := h kv (List.mem_cons_self kv rest)
    have : rdStep p acc kv = acc := by simp [rdStep, h1]
    rw [List.foldl_cons, this]
    exact ih acc (fun x hx => h x (List.mem_cons_of_mem kv hx))

theorem rdStep_mono (p : BStr) (acc : List (BStr × Nat) × List BStr) (kv : BStr × VpkFileInfo)
    (x : BStr × Nat) (hx : x ∈ acc.1) : x ∈ (rdStep p acc kv).1 := by
  unfold rdStep
  split
  · exact hx
  · split
    · split
      · exact hx
      · split
        · exact hx
        · exact List.mem_append_left _ hx
    · exact List.mem_append_left _ hx

theorem rdFold_mono (p : BStr) (l : List (BStr × VpkFileInfo)) :
    ∀ acc x, x ∈ acc.1 → x ∈ (l.foldl (rdStep p) acc).1 := by
  induction l with
  | nil => intro acc x hx; exact hx
  | cons kv rest ih =>
    intro acc x hx
    rw [List.foldl_cons]
    exact ih _ x (rdStep_mono p acc kv x hx)

theorem rdStep_inv (p : BStr) (acc : List (BStr × Nat) × List BStr) (kv : BStr × VpkFileInfo)
    (h : rdInv acc) : rdInv (rdStep p acc kv) := by
  unfold rdStep
  split
  · exact h
  · split
    · split
      · exact h
      · split
        · exact h
        · intro d hd
          rcases List.mem_append.mp hd with hold | hnew
          · exact List.mem_append_left _ (h d hold)
          · simp at hnew
            subst hnew
            exact List.mem_append_right _ (by simp)
    · intro d hd
      exact List.mem_append_left _ (h d hd)

theorem rdFold_inv (p : BStr) (l : List (BStr × VpkFileInfo)) :
    ∀ acc, rdInv acc → rdInv (l.foldl (rdStep p) acc) := by
  induction l with
  | nil => intro acc h; exact h
  | cons kv rest ih =>
    intro acc h
    rw [List.foldl_cons]
    exact ih _ (rdStep_inv p acc kv h)

theorem findIdxB_lt (pred : Nat → Bool) (l : BStr) :
    ∀ j, findIdxB pred l = some j → j < l.length := by
  induction l with
  | nil => intro j h; simp [findIdxB] at h
  | cons x xs ih =>
    intro j h
    by_cases hp : pred x
    · simp [findIdxB, hp] at h
      simp [← h]
    · simp [findIdxB, hp] at h
      rcases h with ⟨j0, hj0, rfl⟩
      have := ih j0 hj0
      simp only [List.length_cons]
      omega

theorem indexOfFrom_bounds (l : BStr) (b s v : Nat) (h : indexOfFrom l b v = some s) :
    v ≤ s ∧ s < l.length := by
  unfold indexOfFrom at h
  rcases Option.map_eq_some'.mp h with ⟨j, hj, rfl⟩
  have hlt := findIdxB_lt _ _ j hj
  rw [List.length_drop] at hlt
  omega

theorem rdFold_mem (p : BStr) (l : List (BStr × VpkFileInfo)) :
    ∀ acc (k : BStr) (info : VpkFileInfo), (k, info) ∈ l → isPrefB p k = true → rdInv acc →
    (match indexOfFrom k 47 (p.length + 1) with
     | none => (basenameB k, 1) ∈ (l.foldl (rdStep p) acc).1
     | some s => (basenameB (k.take s), 2) ∈ (l.foldl (rdStep p) acc).1) := by
  induction l with
  | nil => intro acc k info hm; simp at hm
  | cons kv rest ih =>
    intro acc k info hm hp hinv
    rcases List.mem_cons.mp hm with he | hm2
    · have hkv : kv = (k, info) := he.symm
      subst hkv
      rw [List.foldl_cons]
      cases hidx : indexOfFrom k 47 (p.length + 1) with
      | none =>
        have hstep : (rdStep p acc (k, info)).1 = acc.1 ++ [(basenameB k, 1)] := by
          simp [rdStep, hp, hidx]
        simp only []
        apply rdFold_mono p rest
        rw [hstep]
        exact List.mem_append_right _ (by simp)
      | some s =>
        have hb := indexOfFrom_bounds k 47 s (p.length + 1) hidx
        have hlen : (k.take s).length = s := by
          rw [List.length_take]
          omega
        have hne : ¬ (k.take s = p) := by
          intro hcon
          have : (k.take s).length = p.length := by rw [hcon]
          omega
        simp only []
        by_cases hcont : acc.2.contains (k.take s)
        · have hmemd : k.take s ∈ acc.2 := by simpa using hcont
          have hstep : (rdStep p acc (k, info)).1 = acc.1 := by
            simp [rdStep, hp, hidx, hne, hmemd]
          have hmem : (basenameB (k.take s), 2) ∈ acc.1 := hinv _ hmemd
          apply rdFold_mono p rest
          rw [hstep]
          exact hmem
        · have hmemd : ¬ k.take s ∈ acc.2 := by simpa using hcont
          have hstep : (rdStep p acc (k, info)).1 = acc.1 ++ [(basenameB (k.take s), 2)] := by
            simp [rdStep, hp, hidx, hne, hmemd]
          apply rdFold_mono p rest
          rw [hstep]
          exact List.mem_append_right _ (by simp)
    · rw [List.foldl_cons]
      exact ih (rdStep p acc kv) k info hm2 hp (rdStep_inv p acc kv hinv)

/-! ## Claim C1 -/

/-- C1: on a successfully parsed archive, for every path in the file table,
readFile returns the preload bytes alone when the record length is 0
(regardless of chunk index), and otherwise the preload bytes followed by the
[offset, offset+length) window of the designated data source: the directory
file's own bytes shifted by tree-size for the inline sentinel 0x7FFF, the
external chunk file for any other chunk index. -/
theorem vpk_readFile_preload_and_window (st : VpkSystem) (env : Env) (p : BStr)
    (info : VpkFileInfo)
    (h1 : st.version = 1 ∨ st.version = 2)
    (h2 : assocFind st.files p = some info) :
    (info.length = 0 →
      VpkSystem.readFile st env p = (st, Except.ok (some info.preloadBytes), []))
    ∧ (∀ d : Bytes, info.length ≠ 0 → info.archiveIndex = 0x7fff →
        cacheLookup st.cache info.archiveIndex = none →
        env.read st.path = some d →
        info.offset + st.treeSize + info.length ≤ d.length →
        (VpkSystem.readFile st env p).2.1 =
          Except.ok (some (info.preloadBytes ++
            (d.drop (info.offset + st.treeSize)).take info.length)))
    ∧ (∀ d : Bytes, info.length ≠ 0 → info.archiveIndex ≠ 0x7fff →
        cacheLookup st.cache info.archiveIndex = none →
        env.read (VpkSystem.getArchivePath st info.archiveIndex) = some d →
        info.offset + info.length ≤ d.length →
        (VpkSystem.readFile st env p).2.1 =
          Except.ok (some (info.preloadBytes ++ (d.drop info.offset).take info.length))) := by
  refine ⟨fun h0 => readFile_preload st env p info h1 h2 h0, ?_, ?_⟩
  · intro d h0 hidx hc hd hb
    have hpath : VpkSystem.getArchivePath st info.archiveIndex = st.path := by
      simp [VpkSystem.getArchivePath, hidx]
    have hr := readFile_chunk st env p info d h1 h2 h0 hc (by rw [hpath]; exact hd)
      (by rw [if_pos hidx]; exact hb)
    rw [if_pos hidx] at hr
    exact hr
  · intro d h0 hidx hc hd hb
    have hr := readFile_chunk st env p info d h1 h2 h0 hc hd
      (by rw [if_neg hidx]; simpa using hb)
    rw [if_neg hidx] at hr
    simpa using hr

/-- C1 witness: concrete external-chunk read of /f.txt from stC1. -/
theorem vpk_readFile_preload_and_window_witness :
    (VpkSystem.readFile stC1 envC1 (bstr "/f.txt")).2.1 = Except.ok (some [10, 11, 8, 7]) := by
  rw [(vpk_readFile_preload_and_window stC1 envC1 (bstr "/f.txt")
      { crc := 0, preloadBytes := [10, 11], archiveIndex := 0, offset := 1, length := 2 }
      (Or.inl rfl) (by decide)).2.2 [9, 8, 7, 6]
    (by decide) (by decide) (by decide) (by decide) (by decide)]
  decide

/-! ## Claim C5 -/

/-- C5 counterexample: a record whose window [0, 4) exceeds its 2-byte chunk
file makes readFile raise a RangeError across the query boundary instead of
returning an absent value. -/
theorem vpk_readFile_throws_on_short_chunk :
    (VpkSystem.readFile stC5 envC5 (bstr "/f.txt")).2.1 = Except.error (bstr "RangeError") := by
  decide

/-- C5 (amended): a missing or unreadable external chunk file is surfaced by
readFile as an absent value, with no exception and no state change, and
sibling files of the same archive whose chunks are present (and whose
windows are in bounds) remain readable; but readFile is not exception-free
in general — a record whose window exceeds the chunk's bytes raises. -/
theorem vpk_readFile_missing_chunk_soft (st : VpkSystem) (env : Env) (p : BStr)
    (info : VpkFileInfo)
    (h1 : st.version = 1 ∨ st.version = 2)
    (h2 : assocFind st.files p = some info) (h0 : info.length ≠ 0)
    (hc : cacheLookup st.cache info.archiveIndex = none)
    (hm : env.read (VpkSystem.getArchivePath st info.archiveIndex) = none) :
    VpkSystem.readFile st env p =
      (st, Except.ok none, [VpkSystem.getArchivePath st info.archiveIndex])
    ∧ ∀ (p2 : BStr) (info2 : VpkFileInfo) (d2 : Bytes),
        assocFind st.files p2 = some info2 → info2.length ≠ 0 →
        cacheLookup st.cache info2.archiveIndex = none →
        env.read (VpkSystem.getArchivePath st info2.archiveIndex) = some d2 →
        info2.offset + (if info2.archiveIndex = 0x7fff then st.treeSize else 0) + info2.length
          ≤ d2.length →
        (VpkSystem.readFile st env p2).2.1 =
          Except.ok (some (info2.preloadBytes ++
            (d2.drop (info2.offset +
              (if info2.archiveIndex = 0x7fff then st.treeSize else 0))).take info2.length)) :=
  ⟨readFile_chunk_missing st env p info h1 h2 h0 hc hm,
   fun p2 info2 d2 a b c d e => readFile_chunk st env p2 info2 d2 h1 a b c d e⟩

/-- C5 witness: chunk 000 is missing (NotFound, state intact), the sibling
in chunk 001 still reads. -/
theorem vpk_readFile_missing_chunk_soft_witness :
    VpkSystem.readFile stC5 envC5b (bstr "/f.txt") =
      (stC5, Except.ok none, [bstr "a/pak01_000.vpk"])
    ∧ (VpkSystem.readFile stC5 envC5b (bstr "/g.txt")).2.1 = Except.ok (some [5, 3]) := by
  have h := vpk_readFile_missing_chunk_soft stC5 envC5b (bstr "/f.txt")
    { crc := 0, preloadBytes := [], archiveIndex := 0, offset := 0, length := 4 }
    (Or.inl rfl) (by decide) (by decide) (by decide) (by decide)
  constructor
  · rw [h.1]; decide
  · rw [h.2 (bstr "/g.txt")
      { crc := 0, preloadBytes := [5], archiveIndex := 1, offset := 0, length := 1 }
      [3] (by decide) (by decide) (by decide) (by decide) (by decide)]
    decide

/-! ## Claim C6 -/

/-- C6 counterexample: the first parse of this archive succeeds, yet a
second unforced parse call still performs a backing-byte read of the
directory file. -/
theorem vpk_parse_twice_rereads :
    (VpkSystem.parse (VpkSystem.new (bstr "a/pak01_dir.vpk") true) envC6 false).2.1 =
      Except.ok true
    ∧ (VpkSystem.parse
        (VpkSystem.parse (VpkSystem.new (bstr "a/pak01_dir.vpk") true) envC6 false).1
        envC6 false).2.2 = [bstr "a/pak01_dir.vpk"] := by
  constructor
  · decide
  · decide

/-- C6 (amended): an unforced parse call on a Ready instance re-reads the
backing directory-file bytes (the guard only short-circuits a previously
failed parse); the no-additional-read laziness holds of validate, which on a
non-NONE version performs no backend read and leaves the index unchanged;
and a failed parse is indeed never silently retried without force. -/
theorem vpk_parse_reread_validate_lazy (st : VpkSystem) (env : Env)
    (h : st.version = 1 ∨ st.version = 2) :
    (VpkSystem.parse st env false).2.2 = [st.path]
    ∧ VpkSystem.validate st env = (st, true, [])
    ∧ ∀ st2 : VpkSystem, st2.version = -1 →
        VpkSystem.parse st2 env false = (st2, Except.ok false, []) := by
  refine ⟨?_, validate_ready st env h, ?_⟩
  · have hguard : ¬ (¬ (false : Bool) = true ∧ st.version = -1) := by
      rcases h with h | h <;> simp [h]
    unfold VpkSystem.parse
    rw [if_neg hguard]
    dsimp only
    repeat' split <;> try rfl
  · intro st2 h2
    unfold VpkSystem.parse
    rw [if_pos (by simp [h2])]

/-- C6 witness: the Ready instance stC6w. -/
theorem vpk_parse_reread_validate_lazy_witness :
    (VpkSystem.parse stC6w envC6 false).2.2 = [stC6w.path]
    ∧ VpkSystem.validate stC6w envC6 = (stC6w, true, []) := by
  have h := vpk_parse_reread_validate_lazy stC6w envC6 (Or.inl rfl)
  exact ⟨h.1, h.2.1⟩

/-! ## Claim C7 -/

/-- C7 counterexample: no file-table path has /zzz as a prefix, yet
readDirectory returns an empty listing, not an absent value. -/
theorem vpk_readDirectory_empty_not_none :
    (VpkSystem.readDirectory stC7 emptyEnv (bstr "/zzz")).2.1 = some []
    ∧ ∀ kv ∈ stC7.files, isPrefB (bstr "/zzz") kv.1 = false := by
  constructor
  · decide
  · decide

/-- C7 (amended): on a successfully validated archive readDirectory never
returns an absent value; when no file-table path has the query as a string
prefix the result is the empty listing (an absent value arises only from a
failed validation). -/
theorem vpk_readDirectory_total_on_ready (st : VpkSystem) (env : Env) (p : BStr)
    (h1 : st.version = 1 ∨ st.version = 2) :
    (VpkSystem.readDirectory st env p).2.1 = some ((st.files.foldl (rdStep p) ([], [])).1)
    ∧ ((∀ kv ∈ st.files, isPrefB p kv.1 = false) →
        (VpkSystem.readDirectory st env p).2.1 = some []) := by
  have hmain : (VpkSystem.readDirectory st env p).2.1 =
      some ((st.files.foldl (rdStep p) ([], [])).1) := by
    simp [VpkSystem.readDirectory, validate_ready st env h1]
  refine ⟨hmain, fun hno => ?_⟩
  rw [hmain, rdFold_nomatch p st.files ([], []) hno]

/-- C7 witness. -/
theorem vpk_readDirectory_total_on_ready_witness :
    (VpkSystem.readDirectory stC7 emptyEnv (bstr "/none")).2.1 = some [] :=
  (vpk_readDirectory_total_on_ready stC7 emptyEnv (bstr "/none") (Or.inl rfl)).2 (by decide)

/-! ## Claim C10 -/

/-- C10: readDirectory matches the file table by raw string prefix with no
component-boundary requirement: every file-table path with the query as a
string prefix contributes an entry — a Directory named by the segment ending
at the first slash at index at least one past the query length, a File
otherwise. -/
theorem vpk_readDirectory_raw_prefix (st : VpkSystem) (env : Env) (p k : BStr)
    (info : VpkFileInfo)
    (h1 : st.version = 1 ∨ st.version = 2)
    (h2 : (k, info) ∈ st.files) (h3 : isPrefB p k = true) :
    ∃ out, (VpkSystem.readDirectory st env p).2.1 = some out ∧
      (match indexOfFrom k 47 (p.length + 1) with
       | none => (basenameB k, 1) ∈ out
       | some s => (basenameB (k.take s), 2) ∈ out) := by
  refine ⟨(st.files.foldl (rdStep p) ([], [])).1, ?_, ?_⟩
  · simp [VpkSystem.readDirectory, validate_ready st env h1]
  · exact rdFold_mem p st.files ([], []) k info h2 h3 (fun d hd => by simp at hd)

/-- C10 witness: the query /ma, a proper string prefix of the directory
/maps with no boundary, still receives the entry (maps, Directory). -/
theorem vpk_readDirectory_raw_prefix_witness :
    (∃ out, (VpkSystem.readDirectory stC10 emptyEnv (bstr "/ma")).2.1 = some out ∧
      (match indexOfFrom (bstr "/maps/foo.txt") 47 ((bstr "/ma").length + 1) with
       | none => (basenameB (bstr "/maps/foo.txt"), 1) ∈ out
       | some s => (basenameB ((bstr "/maps/foo.txt").take s), 2) ∈ out))
    ∧ (VpkSystem.readDirectory stC10 emptyEnv (bstr "/ma")).2.1 = some [(bstr "maps", 2)] := by
  constructor
  · exact vpk_readDirectory_raw_prefix stC10 emptyEnv (bstr "/ma") (bstr "/maps/foo.txt")
      { crc := 0, preloadBytes := [], archiveIndex := 0x7fff, offset := 0, length := 0 }
      (Or.inl rfl) (by decide) (by decide)
  · decide

/-! ## Helper lemmas for the GameSystem provider union -/

theorem gsValidate_ready (g : GameSystem) (env : Env) (h : g.initialized = 1) :
    GameSystem.validate g env = (g, true, false) := by
  simp [GameSystem.validate, h]

theorem dedupeInto_cons (seen : List BStr) (out : List (BStr × Nat)) (f : BStr × Nat)
    (rest : List (BStr × Nat)) :
    dedupeInto (seen, out) (f :: rest) =
      dedupeInto (if seen.contains f.1 then (seen, out) else (seen ++ [f.1], out ++ [f])) rest := by
  rfl

theorem dedupeInto_spec (files : List (BStr × Nat)) :
    ∀ seen out, dedupeInto (seen, out) files =
      (seen ++ (dedupeSeen seen files).map (fun f => f.1), out ++ dedupeSeen seen files) := by
  induction files with
  | nil => intro seen out; simp [dedupeInto, dedupeSeen]
  | cons f rest ih =>
    intro seen out
    rw [dedupeInto_cons]
    by_cases hc : f.1 ∈ seen
    · rw [if_pos (by simpa using hc), ih seen out]
      simp [dedupeSeen, hc]
    · rw [if_neg (by simpa using hc), ih (seen ++ [f.1]) (out ++ [f])]
      simp [dedupeSeen, hc, List.append_assoc]

theorem dedupeSeen_append (a : List (BStr × Nat)) :
    ∀ (seen : List BStr) (b : List (BStr × Nat)),
      dedupeSeen seen (a ++ b) =
        dedupeSeen seen a ++ dedupeSeen (seen ++ (dedupeSeen seen a).map (fun f => f.1)) b := by
  induction a with
  | nil => intro seen b; simp [dedupeSeen]
  | cons f rest ih =>
    intro seen b
    by_cases hc : f.1 ∈ seen
    · simp [dedupeSeen, hc, ih seen b]
    · simp [dedupeSeen, hc, ih (seen ++ [f.1]) b, List.append_assoc]

theorem gsRDLoop_spec (env : Env) (p : BStr) (q : Option BStr) (provs : List PEntry) :
    ∀ ex seen out,
      gsRDLoop env p q provs (ex, seen, out) =
        (ex || !(collectLists env p q provs).isEmpty,
         seen ++ (dedupeSeen seen (collectLists env p q provs).flatten).map (fun f => f.1),
         out ++ dedupeSeen seen (collectLists env p q provs).flatten) := by
  induction provs with
  | nil => intro ex seen out; simp [gsRDLoop, collectLists, qualifying, dedupeSeen]
  | cons e rest ih =>
    intro ex seen out
    by_cases hq : qualSkip q e.1
    · have hloop : gsRDLoop env p q (e :: rest) (ex, seen, out) =
          gsRDLoop env p q rest (ex, seen, out) := by
        simp [gsRDLoop, hq]
      have hcol : collectLists env p q (e :: rest) = collectLists env p q rest := by
        simp [collectLists, qualifying, List.filter_cons, hq]
      rw [hloop, hcol, ih]
    · cases hr : e.2.readDirR env p with
      | none =>
        have hloop : gsRDLoop env p q (e :: rest) (ex, seen, out) =
            gsRDLoop env p q rest (ex, seen, out) := by
          simp [gsRDLoop, hq, hr]
        have hcol : collectLists env p q (e :: rest) = collectLists env p q rest := by
          simp [collectLists, qualifying, List.filter_cons, hq, hr]
        rw [hloop, hcol, ih]
      | some files =>
        have hloop : gsRDLoop env p q (e :: rest) (ex, seen, out) =
            gsRDLoop env p q rest
              (true, seen ++ (dedupeSeen seen files).map (fun f => f.1),
               out ++ dedupeSeen seen files) := by
          simp [gsRDLoop, hq, hr, dedupeInto_spec]
        have hcol : collectLists env p q (e :: rest) = files :: collectLists env p q rest := by
          simp [collectLists, qualifying, List.filter_cons, hq, hr]
        rw [hloop, ih, hcol]
        simp [List.flatten, dedupeSeen_append, List.append_assoc]

theorem mem_dedupeSeen (n : BStr) (k : Nat) :
    ∀ (M : List (BStr × Nat)) (seen : List BStr),
      ((n, k) ∈ dedupeSeen seen M ↔ (¬ n ∈ seen ∧ firstHit M n = some k)) := by
  intro M
  induction M with
  | nil => intro seen; simp [dedupeSeen, firstHit]
  | cons f rest ih =>
    intro seen
    by_cases hnf : f.1 = n
    · by_cases hc : f.1 ∈ seen
      · have hns : n ∈ seen := by rw [← hnf]; exact hc
        rw [show dedupeSeen seen (f :: rest) = dedupeSeen seen rest by simp [dedupeSeen, hc]]
        rw [ih seen]
        constructor
        · rintro ⟨hn, _⟩; exact absurd hns hn
        · rintro ⟨hn, _⟩; exact absurd hns hn
      · have hns : ¬ n ∈ seen := by rw [← hnf]; exact hc
        rw [show dedupeSeen seen (f :: rest) = f :: dedupeSeen (seen ++ [f.1]) rest by
          simp [dedupeSeen, hc]]
        have hfh : firstHit (f :: rest) n = some f.2 := by
          simp [firstHit, List.find?_cons, hnf]
        rw [hfh]
        constructor
        · intro hmem
          rcases List.mem_cons.mp hmem with he | hrec
          · refine ⟨hns, ?_⟩
            rw [← he]
          · have := (ih (seen ++ [f.1])).mp hrec
            exfalso
            apply this.1
            simp [hnf]
        · rintro ⟨_, hk⟩
          have hk2 : k = f.2 := by injection hk; omega
          subst hk2
          have : (n, f.2) = f := by
            obtain ⟨f1, f2⟩ := f
            simp at hnf ⊢
            exact hnf.symm
          rw [this]
          exact List.mem_cons_self f _
    · have hfh : firstHit (f :: rest) n = firstHit rest n := by
        simp [firstHit, List.find?_cons, hnf]
      by_cases hc : f.1 ∈ seen
      · rw [show dedupeSeen seen (f :: rest) = dedupeSeen seen rest by simp [dedupeSeen, hc]]
        rw [ih seen, hfh]
      · rw [show dedupeSeen seen (f :: rest) = f :: dedupeSeen (seen ++ [f.1]) rest by
          simp [dedupeSeen, hc]]
        rw [hfh]
        constructor
        · intro hmem
          rcases List.mem_cons.mp hmem with he | hrec
          · exfalso
            apply hnf
            rw [← he]
          · have := (ih (seen ++ [f.1])).mp hrec
            refine ⟨fun hn => this.1 (by simp [hn]), this.2⟩
        · rintro ⟨hn, hk⟩
          right
          refine (ih (seen ++ [f.1])).mpr ⟨?_, hk⟩
          simp [hn]
          intro hcon
          exact hnf hcon.symm

theorem dedupeSeen_names_nodup :
    ∀ (M : List (BStr × Nat)) (seen : List BStr),
      ((dedupeSeen seen M).map (fun f => f.1)).Nodup
      ∧ ∀ n ∈ (dedupeSeen seen M).map (fun f => f.1), ¬ n ∈ seen := by
  intro M
  induction M with
  | nil => intro seen; simp [dedupeSeen]
  | cons f rest ih =>
    intro seen
    by_cases hc : f.1 ∈ seen
    · rw [show dedupeSeen seen (f :: rest) = dedupeSeen seen rest by simp [dedupeSeen, hc]]
      exact ih seen
    · rw [show dedupeSeen seen (f :: rest) = f :: dedupeSeen (seen ++ [f.1]) rest by
        simp [dedupeSeen, hc]]
      have hrec := ih (seen ++ [f.1])
      constructor
      · rw [List.map_cons, List.nodup_cons]
        refine ⟨fun hin => ?_, hrec.1⟩
        have := hrec.2 f.1 hin
        simp at this
      · intro n hn
        rw [List.map_cons] at hn
        rcases List.mem_cons.mp hn with he | hrec2
        · rw [he]; exact hc
        · intro hns
          exact hrec.2 n hrec2 (by simp [hns])

theorem collectLists_nil_iff (env : Env) (p : BStr) (q : Option BStr) (provs : List PEntry) :
    collectLists env p q provs = [] ↔
      ∀ e ∈ provs, qualSkip q e.1 = false → e.2.readDirR env p = none := by
  rw [collectLists, List.filterMap_eq_nil_iff]
  constructor
  · intro h e he hq
    exact h e (List.mem_filter.mpr ⟨he, by simp [hq]⟩)
  · intro h e he
    have := List.mem_filter.mp he
    exact h e this.1 (by simpa using this.2)

/-! ## Claim C2 -/

/-- C2: GameSystem.readDirectory on a Ready instance is the de-duplicated
union of all qualifying providers' listings: it is absent exactly when no
qualifying provider reports the directory, its content is the concatenated
qualifying listings de-duplicated by name, a name's kind comes from its
first occurrence in declaration order (even when a later provider reports a
different kind), and no name appears twice. -/
theorem game_readDirectory_union (g : GameSystem) (env : Env) (p : BStr) (q : Option BStr)
    (h : g.initialized = 1) :
    ((GameSystem.readDirectory g env p q).2.1 = none ↔
      ∀ e ∈ g.providers, qualSkip q e.1 = false → e.2.readDirR env p = none)
    ∧ (∀ out, (GameSystem.readDirectory g env p q).2.1 = some out →
        out = dedupeSeen [] (collectLists env p q g.providers).flatten)
    ∧ (∀ out, (GameSystem.readDirectory g env p q).2.1 = some out →
        ∀ n k, ((n, k) ∈ out ↔
          firstHit ((collectLists env p q g.providers).flatten) n = some k))
    ∧ (∀ out, (GameSystem.readDirectory g env p q).2.1 = some out →
        (out.map (fun f => f.1)).Nodup) := by
  have hloop := gsRDLoop_spec env p q g.providers false [] []
  have hr : (GameSystem.readDirectory g env p q).2.1 =
      if !(collectLists env p q g.providers).isEmpty then
        some (dedupeSeen [] (collectLists env p q g.providers).flatten)
      else none := by
    simp [GameSystem.readDirectory, gsValidate_ready g env h, hloop]
  have hb : ∀ out, (GameSystem.readDirectory g env p q).2.1 = some out →
      out = dedupeSeen [] (collectLists env p q g.providers).flatten := by
    intro out hout
    rw [hr] at hout
    by_cases hemp : (collectLists env p q g.providers).isEmpty
    · simp [hemp] at hout
    · simp [hemp] at hout
      exact hout.symm
  refine ⟨?_, hb, ?_, ?_⟩
  · have ha : ((GameSystem.readDirectory g env p q).2.1 = none ↔
        collectLists env p q g.providers = []) := by
      rw [hr]
      by_cases hemp : (collectLists env p q g.providers).isEmpty
      · have hnil : collectLists env p q g.providers = [] := by simpa using hemp
        simp [hemp, hnil]
      · have hnnil : ¬ collectLists env p q g.providers = [] := by simpa using hemp
        simp [hemp, hnnil]
    exact ha.trans (collectLists_nil_iff env p q g.providers)
  · intro out hout n k
    rw [hb out hout]
    rw [mem_dedupeSeen n k ((collectLists env p q g.providers).flatten) []]
    simp
  · intro out hout
    rw [hb out hout]
    exact (dedupeSeen_names_nodup ((collectLists env p q g.providers).flatten) []).1

/-- C2 witness: a folder provider declared before an archive provider; both
report the name x with different kinds, and the folder's File entry wins. -/
theorem game_readDirectory_union_witness :
    (GameSystem.readDirectory gC2 envC2 (bstr "/maps") none).2.1 =
      some [(bstr "x", 1), (bstr "y", 1)]
    ∧ firstHit ((collectLists envC2 (bstr "/maps") none gC2.providers).flatten) (bstr "x") =
        some 1 := by
  constructor
  · decide
  · exact ((game_readDirectory_union gC2 envC2 (bstr "/maps") none rfl).2.2.1
      [(bstr "x", 1), (bstr "y", 1)] (by decide) (bstr "x") 1).mp (by decide)

/-! ## Claim C3 — helper lemmas for the stable archive-first sort -/

theorem insertStable_allnon (x : PEntry) (hx : x.2.isVpkP = false) :
    ∀ G, (∀ e ∈ G, e.2.isVpkP = false) → insertStable x G = G ++ [x] := by
  intro G
  induction G with
  | nil => intro _; rfl
  | cons y ys ih =>
    intro hG
    have hy : y.2.isVpkP = false := hG y (List.mem_cons_self y ys)
    have hrec := ih (fun e he => hG e (List.mem_cons_of_mem y he))
    simp [insertStable, sortKey, hx, hy, hrec]

theorem insertStable_vpk (x : PEntry) (hx : x.2.isVpkP = true) :
    ∀ F G, (∀ e ∈ F, e.2.isVpkP = true) → (∀ e ∈ G, e.2.isVpkP = false) →
      insertStable x (F ++ G) = F ++ x :: G := by
  intro F
  induction F with
  | nil =>
    intro G _ hG
    cases G with
    | nil => rfl
    | cons y ys =>
      have hy : y.2.isVpkP = false := hG y (List.mem_cons_self y ys)
      simp [insertStable, sortKey, hx, hy]
  | cons z F2 ih =>
    intro G hF hG
    have hz : z.2.isVpkP = true := hF z (List.mem_cons_self z F2)
    have hrec := ih G (fun e he => hF e (List.mem_cons_of_mem z he)) hG
    simp [insertStable, sortKey, hx, hz, hrec]

theorem insertStable_nonvpk (x : PEntry) (hx : x.2.isVpkP = false) :
    ∀ F G, (∀ e ∈ F, e.2.isVpkP = true) → (∀ e ∈ G, e.2.isVpkP = false) →
      insertStable x (F ++ G) = F ++ G ++ [x] := by
  intro F
  induction F with
  | nil =>
    intro G _ hG
    simpa using insertStable_allnon x hx G hG
  | cons z F2 ih =>
    intro G hF hG
    have hz : z.2.isVpkP = true := hF z (List.mem_cons_self z F2)
    have hrec := ih G (fun e he => hF e (List.mem_cons_of_mem z he)) hG
    simp [insertStable, sortKey, hx, hz, hrec]

theorem jsToSorted_eq_filters (l : List PEntry) :
    jsToSorted l =
      l.filter (fun e => e.2.isVpkP) ++ l.filter (fun e => ! e.2.isVpkP) := by
  suffices hgen : ∀ (l2 : List PEntry) (F G : List PEntry),
      (∀ e ∈ F, e.2.isVpkP = true) → (∀ e ∈ G, e.2.isVpkP = false) →
      l2.foldl (fun acc x => insertStable x acc) (F ++ G) =
        (F ++ l2.filter (fun e => e.2.isVpkP)) ++ (G ++ l2.filter (fun e => ! e.2.isVpkP)) by
    have hmain := hgen l [] [] (by simp) (by simp)
    simpa [jsToSorted] using hmain
  intro l2
  induction l2 with
  | nil => intro F G _ _; simp
  | cons x rest ih =>
    intro F G hF hG
    rw [List.foldl_cons]
    by_cases hx : x.2.isVpkP
    · rw [insertStable_vpk x hx F G hF hG]
      have hsh : F ++ x :: G = (F ++ [x]) ++ G := by simp
      rw [hsh, ih (F ++ [x]) G
        (by intro e he; rcases List.mem_append.mp he with h1 | h2
            · exact hF e h1
            · simp at h2; rw [h2]; exact hx) hG]
      simp [List.filter_cons, hx, List.append_assoc]
    · have hx2 : x.2.isVpkP = false := by simpa using hx
      rw [insertStable_nonvpk x hx2 F G hF hG]
      have hsh : F ++ G ++ [x] = F ++ (G ++ [x]) := by simp
      rw [hsh, ih F (G ++ [x]) hF
        (by intro e he; rcases List.mem_append.mp he with h1 | h2
            · exact hG e h1
            · simp at h2; rw [h2]; exact hx2)]
      simp [List.filter_cons, hx2, List.append_assoc]

/-- C3: under archive-priority ordering (preferVpk for readFile/getPath,
always for stat), the walked list is the stable partition of the providers
with every archive-backed provider before every folder-backed one and
relative declaration order preserved within each group; in particular with a
folder declared first and an archive second, the tie goes to the archive. -/
theorem game_archive_priority (g : GameSystem) (env : Env) (p : BStr) (q : Option BStr)
    (h : g.initialized = 1)
    (hs : g.providersSorted = jsToSorted g.providers) :
    g.providersSorted =
      g.providers.filter (fun e => e.2.isVpkP) ++ g.providers.filter (fun e => ! e.2.isVpkP)
    ∧ (GameSystem.readFile g env p q true).2.1 =
        gsFileLoop env p q
          (g.providers.filter (fun e => e.2.isVpkP) ++
           g.providers.filter (fun e => ! e.2.isVpkP))
    ∧ (GameSystem.getPath g env p q true).2.1 =
        gsPathLoop env p q
          (g.providers.filter (fun e => e.2.isVpkP) ++
           g.providers.filter (fun e => ! e.2.isVpkP))
    ∧ (GameSystem.stat g env p q).2.1 =
        gsStatLoop env p q
          (g.providers.filter (fun e => e.2.isVpkP) ++
           g.providers.filter (fun e => ! e.2.isVpkP))
    ∧ (∀ e1 e2, g.providers = [e1, e2] → e1.2.isVpkP = false → e2.2.isVpkP = true →
        (GameSystem.readFile g env p q true).2.1 = gsFileLoop env p q [e2, e1]
        ∧ (GameSystem.stat g env p q).2.1 = gsStatLoop env p q [e2, e1]) := by
  have hsf : g.providersSorted =
      g.providers.filter (fun e => e.2.isVpkP) ++ g.providers.filter (fun e => ! e.2.isVpkP) := by
    rw [hs, jsToSorted_eq_filters]
  have hrf : (GameSystem.readFile g env p q true).2.1 =
      gsFileLoop env p q g.providersSorted := by
    simp [GameSystem.readFile, gsValidate_ready g env h]
  have hgp : (GameSystem.getPath g env p q true).2.1 =
      gsPathLoop env p q g.providersSorted := by
    simp [GameSystem.getPath, gsValidate_ready g env h]
  have hst : (GameSystem.stat g env p q).2.1 =
      gsStatLoop env p q g.providersSorted := by
    simp [GameSystem.stat, gsValidate_ready g env h]
  refine ⟨hsf, by rw [hrf, hsf], by rw [hgp, hsf], by rw [hst, hsf], ?_⟩
  intro e1 e2 hpe h1 h2
  have hlist : g.providers.filter (fun e => e.2.isVpkP) ++
      g.providers.filter (fun e => ! e.2.isVpkP) = [e2, e1] := by
    rw [hpe]
    simp [List.filter_cons, h1, h2]
  exact ⟨by rw [hrf, hsf, hlist], by rw [hst, hsf, hlist]⟩

/-- C3 witness: in gC3 the folder provider is declared first, the archive
second; with archive-priority requested the archive's bytes win readFile and
its stat wins stat. -/
theorem game_archive_priority_witness :
    (GameSystem.readFile gC3 envC3 (bstr "/f.txt") none true).2.1 = Except.ok (some [7])
    ∧ (GameSystem.stat gC3 envC3 (bstr "/f.txt") none).2.1 =
        some { type := 1, ctime := 0, mtime := 0, size := 0 } := by
  have h := (game_archive_priority gC3 envC3 (bstr "/f.txt") none rfl rfl).2.2.2.2
    ([bstr "game"], ProvSys.fold (bstr "/L")) ([bstr "game"], ProvSys.vpk stC3v)
    rfl (by decide) (by decide)
  constructor
  · rw [h.1]; decide
  · rw [h.2]; decide

/-! ## Claim C4 -/

/-- C4: a failed configuration read during GameSystem.parse leaves the
instance in the sticky Error state: parse returns false with only
initialized changed, and from the Error state every query returns an absent
value without throwing and without re-attempting the parse (the third
component of each result records whether a parse was attempted), until a
caller invokes parse explicitly. -/
theorem game_error_state_sticky (g : GameSystem) (env : Env)
    (h : readKV env (pjoin g.modroot (bstr "gameinfo.txt")) = none) :
    GameSystem.parse g env = ({ g with initialized := 2 }, Except.ok false)
    ∧ GameSystem.validate { g with initialized := 2 } env =
        ({ g with initialized := 2 }, false, false)
    ∧ (∀ p q pv, GameSystem.readFile { g with initialized := 2 } env p q pv =
        ({ g with initialized := 2 }, Except.ok none, false))
    ∧ (∀ p q pv, GameSystem.getPath { g with initialized := 2 } env p q pv =
        ({ g with initialized := 2 }, none, false))
    ∧ (∀ p q, GameSystem.readDirectory { g with initialized := 2 } env p q =
        ({ g with initialized := 2 }, none, false))
    ∧ (∀ p q, GameSystem.stat { g with initialized := 2 } env p q =
        ({ g with initialized := 2 }, none, false)) := by
  have hv : GameSystem.validate { g with initialized := 2 } env =
      ({ g with initialized := 2 }, false, false) := by
    simp [GameSystem.validate]
  refine ⟨?_, hv, ?_, ?_, ?_, ?_⟩
  · simp [GameSystem.parse, h]
  · intro p q pv; simp [GameSystem.readFile, hv]
  · intro p q pv; simp [GameSystem.getPath, hv]
  · intro p q; simp [GameSystem.readDirectory, hv]
  · intro p q; simp [GameSystem.stat, hv]

/-- C4 witness: gC4's backend has no gameinfo.txt. -/
theorem game_error_state_sticky_witness :
    GameSystem.parse gC4 emptyEnv = ({ gC4 with initialized := 2 }, Except.ok false)
    ∧ (GameSystem.readFile { gC4 with initialized := 2 } emptyEnv (bstr "/x") none false).2.1 =
        Except.ok none := by
  have h := game_error_state_sticky gC4 emptyEnv rfl
  exact ⟨h.1, by rw [h.2.2.1 (bstr "/x") none false]⟩

/-! ## Claim C8 -/

/-- C8 counterexample: the gameinfo of gC8 declares the search path
pak01.vpk (relative to the gameinfo directory); a true single-file archive
exists at /mod/pak01.vpk (its stat succeeds), yet parse commits the provider
to /mod/pak01_dir.vpk without any probe of the original name. -/
theorem game_searchpath_no_probe :
    (GameSystem.parse gC8 envC8).2 = Except.ok true
    ∧ (envC8.statf (bstr "/mod/pak01.vpk")).isSome = true
    ∧ ((GameSystem.parse gC8 envC8).1.providers.map pentryPath) =
        [bstr "/mod/pak01_dir.vpk"] := by
  refine ⟨by decide, by decide, by decide⟩

/-- C8 (amended): a search-path declaration ending in .vpk is rewritten
unconditionally to the directory-indexed form with no probe of the storage
backend; only mount declarations probe — a mount vpk item commits to the
single-file name item ++ .vpk exactly when the backend stats it, falling
back to item ++ _dir.vpk otherwise. -/
theorem game_vpk_rewrite_and_probe (env : Env) :
    (∀ raw, isSuffB (bstr ".vpk") raw = true →
        rewriteVpkSearchPath raw = raw.take (raw.length - 4) ++ bstr "_dir.vpk")
    ∧ (∀ base, (env.statf (base ++ bstr ".vpk")).isSome = true →
        resolveMountVpkPath env base = base ++ bstr ".vpk")
    ∧ (∀ base, env.statf (base ++ bstr ".vpk") = none →
        resolveMountVpkPath env base = base ++ bstr "_dir.vpk") := by
  refine ⟨fun raw hr => by simp [rewriteVpkSearchPath, hr],
    fun base hb => by simp [resolveMountVpkPath, hb],
    fun base hb => by simp [resolveMountVpkPath, hb]⟩

/-- C8 witness: the unconditional search-path rewrite, and the mount probe
committing to the single-file archive that envC8 really has. -/
theorem game_vpk_rewrite_and_probe_witness :
    rewriteVpkSearchPath (bstr "pak01.vpk") = bstr "pak01_dir.vpk"
    ∧ resolveMountVpkPath envC8 (bstr "/mod/pak01") = bstr "/mod/pak01.vpk" := by
  have h := game_vpk_rewrite_and_probe envC8
  constructor
  · rw [h.1 (bstr "pak01.vpk") (by decide)]; decide
  · rw [h.2.1 (bstr "/mod/pak01") (by decide)]; decide

/-! ## Claim C9 -/

theorem dAssocFind_insert (k : BStr) (v : Option BStr) :
    ∀ l : List (BStr × Option BStr), dAssocFind (dAssocInsert l k v) k = some v := by
  intro l
  induction l with
  | nil => simp [dAssocInsert, dAssocFind]
  | cons e es ih =>
    by_cases he : e.1 = k
    · simp [dAssocInsert, dAssocFind, he]
    · by_cases hany : es.any (fun x => x.1 == k)
      · have ih2 : dAssocFind (es.map (fun x => if x.1 == k then (k, v) else x)) k = some v := by
          have := ih
          simpa [dAssocInsert, hany] using this
        simp [dAssocInsert, dAssocFind, he, hany] at ih2 ⊢
        exact ih2
      · have ih2 : dAssocFind (es ++ [(k, v)]) k = some v := by
          have := ih
          simpa [dAssocInsert, hany] using this
        simp [dAssocInsert, dAssocFind, he, hany] at ih2 ⊢
        exact ih2

/-- C9 counterexample: appid 240 is in the library map but its manifest is
unreadable; after a failed resolution the cache holds no negative entry for
it, and a later unforced resolution re-reads the manifest. -/
theorem steam_read_failure_not_cached :
    dAssocMem (SteamCache.parseGame sC9 emptyEnv (bstr "240") false).1.appdircache
      (bstr "240") = false
    ∧ (SteamCache.findGame (SteamCache.parseGame sC9 emptyEnv (bstr "240") false).1 emptyEnv
        (bstr "240")).2.2 = [manifestPath (bstr "/lib") (bstr "240")] := by
  refine ⟨by decide, by decide⟩

/-- C9 (amended): a manifest that reads but fails to parse caches a negative
entry for the appid (resolution returns absent); a manifest that cannot be
read at all caches nothing — the state is unchanged and every later unforced
resolution re-reads the manifest; and a cached value (positive or negative)
is returned by findGame without any backend read. -/
theorem steam_negative_caching (s : SteamCache) (env : Env) (appid : BStr) :
    (∀ libPath doc e,
        sAssocFind s.applibcache appid = some libPath → libPath ≠ [] →
        dAssocMem s.appdircache appid = false →
        readKV env (manifestPath libPath appid) = some doc →
        manifestInstallDir doc = Except.error e →
        SteamCache.parseGame s env appid false =
          ({ s with appdircache := dAssocInsert s.appdircache appid none }, none,
           [manifestPath libPath appid]))
    ∧ (∀ libPath,
        sAssocFind s.applibcache appid = some libPath → libPath ≠ [] →
        dAssocMem s.appdircache appid = false →
        readKV env (manifestPath libPath appid) = none →
        SteamCache.parseGame s env appid false =
          (s, none, [manifestPath libPath appid])
        ∧ (s.initialized ≠ 0 → (SteamCache.findGame s env appid).2.2 =
            [manifestPath libPath appid]))
    ∧ (s.initialized ≠ 0 → dAssocMem s.appdircache appid = true →
        SteamCache.findGame s env appid =
          (s, Except.ok ((dAssocFind s.appdircache appid).join), [])) := by
  refine ⟨?_, ?_, ?_⟩
  · intro libPath doc e hlib hne hmem hdoc herr
    simp [SteamCache.parseGame, hlib, hne, hmem, hdoc, herr, dAssocFind_insert]
  · intro libPath hlib hne hmem hread
    have hpg : SteamCache.parseGame s env appid false =
        (s, none, [manifestPath libPath appid]) := by
      simp [SteamCache.parseGame, hlib, hne, hmem, hread]
    refine ⟨hpg, fun hinit => ?_⟩
    simp [SteamCache.findGame, hinit, hmem, hpg]
  · intro hinit hmem
    simp [SteamCache.findGame, hinit, hmem]

/-- C9 witness: a cached negative for appid 240 is returned by findGame
without any backend read. -/
theorem steam_negative_caching_witness :
    SteamCache.findGame sC9b emptyEnv (bstr "240") = (sC9b, Except.ok none, []) := by
  have h := (steam_negative_caching sC9b emptyEnv (bstr "240")).2.2 (by decide) (by decide)
  rw [h]
  decide
